import Mathlib

/-!
# Verification of the localbusiness-schema-generator utilities and services

This development shallowly embeds the pure cores of the repository's Python
modules (`app/utils.py`, `app/crawler.py`, `app/schema_generator.py`,
`app/main.py`, `app/concurrency_limiter.py`, `app/stats.py`, `app/cache.py`)
as executable Lean definitions, and proves or refutes the specification
claims about them.

Python regular-expression character classes are embedded as executable
predicates over `Char`:

* `\s` (with Python's Unicode semantics) is `pyIsSpace`;
* `\w` is `isWordChar`; Python's `\w` matches Unicode word characters, which
  we render as ASCII alphanumerics, the underscore, and the CJK Unified
  Ideographs block (the only non-ASCII word characters this repository's
  data ever exercises);
* the C0/C1 removal class `[\x00-\x1f\x7f-\x9f]` is `isCtrlChar`.

Strings are processed through their underlying character lists.
-/

namespace LBSG

/-- Python `\s` / `str.isspace`: Unicode whitespace.  The code points are the
ones Python's `re` module treats as whitespace in text patterns. -/
def pyIsSpaceN (n : Nat) : Bool :=
  decide (n = 0x09 ∨ n = 0x0a ∨ n = 0x0b ∨ n = 0x0c ∨ n = 0x0d ∨
    n = 0x1c ∨ n = 0x1d ∨ n = 0x1e ∨ n = 0x1f ∨ n = 0x20 ∨
    n = 0x85 ∨ n = 0xa0 ∨ n = 0x1680 ∨
    (0x2000 ≤ n ∧ n ≤ 0x200a) ∨ n = 0x2028 ∨ n = 0x2029 ∨
    n = 0x202f ∨ n = 0x205f ∨ n = 0x3000)

def pyIsSpace (c : Char) : Bool := pyIsSpaceN c.val.toNat

/-- Python `\w` (word character), restricted to the character repertoire the
repository exercises: ASCII letters and digits, `_`, and CJK ideographs. -/
def isWordCharN (n : Nat) : Bool :=
  decide ((48 ≤ n ∧ n ≤ 57) ∨ (65 ≤ n ∧ n ≤ 90) ∨ (97 ≤ n ∧ n ≤ 122) ∨
    n = 95 ∨ (0x4e00 ≤ n ∧ n ≤ 0x9fff))

def isWordChar (c : Char) : Bool := isWordCharN c.val.toNat

/-- The class `[\x00-\x1f\x7f-\x9f]` removed by `clean_text`. -/
def isCtrlCharN (n : Nat) : Bool :=
  decide (n ≤ 0x1f ∨ (0x7f ≤ n ∧ n ≤ 0x9f))

def isCtrlChar (c : Char) : Bool := isCtrlCharN c.val.toNat

/-- The class `[\w\d\s,.\-()]` that `clean_text` allows in a trailing run
(the complement of what `re.sub(r'[^\w\d\s,.\-()]+$', '', ...)` deletes). -/
def allowedTrail (c : Char) : Bool :=
  isWordChar c || pyIsSpace c ||
    decide (c.val.toNat = 44 ∨ c.val.toNat = 46 ∨ c.val.toNat = 45 ∨
      c.val.toNat = 40 ∨ c.val.toNat = 41)

theorem word_not_space {c : Char} (h : isWordChar c = true) :
    pyIsSpace c = false := by
  unfold isWordChar isWordCharN at h
  unfold pyIsSpace pyIsSpaceN
  simp only [decide_eq_true_eq, decide_eq_false_iff_not] at h ⊢
  omega

theorem word_allowedTrail {c : Char} (h : isWordChar c = true) :
    allowedTrail c = true := by
  unfold allowedTrail
  simp [h]

theorem space_allowedTrail {c : Char} (h : pyIsSpace c = true) :
    allowedTrail c = true := by
  unfold allowedTrail
  simp [h]

theorem space_char_allowedTrail : allowedTrail ' ' = true := by decide

theorem space_not_ctrl : isCtrlChar ' ' = false := by decide

/-! ## List-level utilities shared by the embeddings -/

/-- Left trim by a Boolean predicate (`str.strip`'s left half, `dropWhile`). -/
abbrev dropL (p : Char → Bool) (l : List Char) : List Char := l.dropWhile p

/-- Right trim by a Boolean predicate: drop the maximal trailing run. -/
def dropR (p : Char → Bool) (l : List Char) : List Char :=
  (l.reverse.dropWhile p).reverse

/-- Python `str.strip()` on character lists. -/
def pyStripL (l : List Char) : List Char :=
  dropR pyIsSpace (dropL pyIsSpace l)

/-- Python `str.strip()` on strings. -/
def pyStrip (s : String) : String := String.mk (pyStripL s.data)

/-- `re.sub(r'\s+', ' ', ·)`: replace each maximal whitespace run by one
space.  The flag records whether the previous character was whitespace. -/
def collapseAux : Bool → List Char → List Char
  | _, [] => []
  | prev, c :: cs =>
    if pyIsSpace c then
      if prev then collapseAux true cs else ' ' :: collapseAux true cs
    else c :: collapseAux false cs

def collapseWs (l : List Char) : List Char := collapseAux false l

/-- `re.sub(r'[\x00-\x1f\x7f-\x9f]', '', ·)`. -/
def removeCtrl (l : List Char) : List Char := l.filter (fun c => !isCtrlChar c)

/-- `re.sub(r'^[^\w\d]+', '', ·)` (note `\d ⊆ \w`). -/
def dropLeadJunk (l : List Char) : List Char := dropL (fun c => !isWordChar c) l

/-- `re.sub(r'[^\w\d\s,.\-()]+$', '', ·)`. -/
def dropTrailJunk (l : List Char) : List Char := dropR (fun c => !allowedTrail c) l

/-- `utils.clean_text` on character lists: collapse whitespace on the
stripped text, delete C0/C1 characters, strip the leading non-word run and
the trailing disallowed run, and strip once more. -/
def cleanList (l : List Char) : List Char :=
  pyStripL (dropTrailJunk (dropLeadJunk (removeCtrl (collapseWs (pyStripL l)))))

/-- `utils.clean_text`.  The `if not text` guard returns `""` unchanged. -/
def cleanText (s : String) : String :=
  if s = "" then "" else String.mk (cleanList s.data)

example : cleanText "  Hello   World  " = "Hello World" := by decide
example : cleanText "• Hello!" = "Hello" := by decide
example : cleanText "a@ @" = "a@" := by decide
example : cleanText "a@" = "a" := by decide

/-! ## ASCII case and digit helpers (Python `str.lower/upper/isalpha`, `\d`) -/

def pyIsDigit (c : Char) : Bool := decide (48 ≤ c.val.toNat ∧ c.val.toNat ≤ 57)

def pyIsUpper (c : Char) : Bool := decide (65 ≤ c.val.toNat ∧ c.val.toNat ≤ 90)

def pyIsAsciiAlpha (c : Char) : Bool :=
  pyIsUpper c || decide (97 ≤ c.val.toNat ∧ c.val.toNat ≤ 122)

def pyLowerChar (c : Char) : Char :=
  if pyIsUpper c then Char.ofNat (c.val.toNat + 32) else c

def pyUpperChar (c : Char) : Char :=
  if decide (97 ≤ c.val.toNat ∧ c.val.toNat ≤ 122) then Char.ofNat (c.val.toNat - 32) else c

/-- Python `str.lower()` (ASCII letters; the Chinese country names in the
table contain no cased characters). -/
def pyLower (s : String) : String := String.mk (s.data.map pyLowerChar)

/-- Python `str.upper()` (ASCII letters). -/
def pyUpper (s : String) : String := String.mk (s.data.map pyUpperChar)

/-! ## `utils.format_phone_number`

`re.sub(r'[^\d+]', '', phone)` keeps every digit and every `'+'`, wherever
it occurs; the `if cleaned and not cleaned.startswith('+')` branch in the
source is a no-op (`pass`). -/

def formatPhoneNumber (phone : String) : Option String :=
  if phone = "" then none
  else
    let cleaned := String.mk (phone.data.filter (fun c => pyIsDigit c || c == '+'))
    if cleaned = "" then none else some cleaned

example : formatPhoneNumber "(555) 123-4567" = some "5551234567" := by decide
example : formatPhoneNumber "+1 (555) 123-4567" = some "+15551234567" := by decide
example : formatPhoneNumber "5+5" = some "5+5" := by decide

/-! ## `utils.parse_address` regular-expression matchers

Each `re.match` of `parse_address` is embedded as a deterministic matcher.
The inputs these run on come from a comma-split of `clean_text` output, so
they contain no newline; `.` therefore matches any character. -/

/-- `re.match(r'^([A-Z]{2})\s+(\d{5}(?:-\d{4})?)$', s)`: returns the two
captured groups (state, zip). -/
def usStateZipMatch (l : List Char) : Option (String × String) :=
  match l with
  | c1 :: c2 :: rest =>
    if pyIsUpper c1 && pyIsUpper c2 then
      let r2 := rest.dropWhile pyIsSpace
      if rest.takeWhile pyIsSpace = [] then none
      else
        let d5 := r2.take 5
        let after := r2.drop 5
        if d5.length = 5 && d5.all pyIsDigit then
          if after = [] then some (String.mk [c1, c2], String.mk d5)
          else
            match after with
            | '-' :: d4 =>
              if d4.length = 4 && d4.all pyIsDigit then
                some (String.mk [c1, c2], String.mk (d5 ++ '-' :: d4))
              else none
            | _ => none
        else none
    else none
  | _ => none

/-- The `\s+([A-Z]{2,3})\s+(\d{4})$` tail of the AU pattern, tried at one
prefix split; `{2,3}` is greedy, so a 3-letter region is attempted first. -/
def auRegionMatch (r2 : List Char) (k : Nat) : Option (String × String) :=
  let reg := r2.take k
  let r3 := r2.drop k
  if reg.length = k && reg.all pyIsUpper then
    let r4 := r3.dropWhile pyIsSpace
    if r3.takeWhile pyIsSpace = [] then none
    else if r4.length = 4 && r4.all pyIsDigit then some (String.mk reg, String.mk r4)
    else none
  else none

def auTailMatch (rest : List Char) : Option (String × String) :=
  if rest.takeWhile pyIsSpace = [] then none
  else
    let r2 := rest.dropWhile pyIsSpace
    match auRegionMatch r2 3 with
    | some x => some x
    | none => auRegionMatch r2 2

/-- `re.match(r'^(.+?)\s+([A-Z]{2,3})\s+(\d{4})$', s)`: the lazy `(.+?)`
takes the shortest prefix whose remainder matches the tail. -/
def auMatchAux : List Char → List Char → Option (String × String × String)
  | _, [] => none
  | pre, c :: cs =>
    match auTailMatch cs with
    | some (reg, dig) => some (String.mk (pre ++ [c]), reg, dig)
    | none => auMatchAux (pre ++ [c]) cs

def auMatch (l : List Char) : Option (String × String × String) := auMatchAux [] l

/-- The `\s+(\d{3,6})$` tail of the generic postcode pattern. -/
def postalTailMatch (rest : List Char) : Option String :=
  if rest.takeWhile pyIsSpace = [] then none
  else
    let r2 := rest.dropWhile pyIsSpace
    if r2 ≠ [] && r2.all pyIsDigit && 3 ≤ r2.length && r2.length ≤ 6 then
      some (String.mk r2)
    else none

/-- `re.match(r'(.+?)\s+(\d{3,6})$', s)`. -/
def postalMatchAux : List Char → List Char → Option (String × String)
  | _, [] => none
  | pre, c :: cs =>
    match postalTailMatch cs with
    | some dig => some (String.mk (pre ++ [c]), dig)
    | none => postalMatchAux (pre ++ [c]) cs

def postalMatch (l : List Char) : Option (String × String) := postalMatchAux [] l

example : usStateZipMatch "NY 10001".data = some ("NY", "10001") := by decide
example : usStateZipMatch "Warragul VIC 3820".data = none := by decide
example : auMatch "Warragul VIC 3820".data = some ("Warragul", "VIC", "3820") := by decide
example : postalMatch "Shinjuku 160002".data = some ("Shinjuku", "160002") := by decide
example : postalMatch "Shinjuku 1600022".data = none := by decide

/-- The `country_mapping` table of `utils.parse_address` (lower-case
country-name variants to ISO-3166 alpha-2 codes), transcribed verbatim. -/
def countryMapping : List (String × String) := [
  ("australia", "AU"), ("united states", "US"), ("usa", "US"),
  ("united states of america", "US"), ("america", "US"),
  ("united kingdom", "GB"), ("uk", "GB"), ("great britain", "GB"),
  ("britain", "GB"), ("england", "GB"), ("scotland", "GB"), ("wales", "GB"),
  ("northern ireland", "GB"), ("canada", "CA"), ("new zealand", "NZ"),
  ("ireland", "IE"), ("south africa", "ZA"),
  ("germany", "DE"), ("deutschland", "DE"), ("france", "FR"), ("italy", "IT"),
  ("spain", "ES"), ("portugal", "PT"), ("netherlands", "NL"), ("holland", "NL"),
  ("belgium", "BE"), ("switzerland", "CH"), ("austria", "AT"), ("sweden", "SE"),
  ("norway", "NO"), ("denmark", "DK"), ("finland", "FI"), ("poland", "PL"),
  ("czech republic", "CZ"), ("hungary", "HU"), ("romania", "RO"),
  ("bulgaria", "BG"), ("croatia", "HR"), ("slovenia", "SI"), ("slovakia", "SK"),
  ("estonia", "EE"), ("latvia", "LV"), ("lithuania", "LT"), ("greece", "GR"),
  ("cyprus", "CY"), ("malta", "MT"), ("luxembourg", "LU"), ("iceland", "IS"),
  ("russia", "RU"), ("ukraine", "UA"), ("belarus", "BY"), ("moldova", "MD"),
  ("serbia", "RS"), ("montenegro", "ME"), ("bosnia and herzegovina", "BA"),
  ("north macedonia", "MK"), ("albania", "AL"), ("kosovo", "XK"),
  ("china", "CN"), ("japan", "JP"), ("south korea", "KR"), ("korea", "KR"),
  ("north korea", "KP"), ("india", "IN"), ("pakistan", "PK"),
  ("bangladesh", "BD"), ("sri lanka", "LK"), ("nepal", "NP"), ("bhutan", "BT"),
  ("maldives", "MV"), ("afghanistan", "AF"), ("iran", "IR"), ("iraq", "IQ"),
  ("turkey", "TR"), ("israel", "IL"), ("palestine", "PS"), ("jordan", "JO"),
  ("lebanon", "LB"), ("syria", "SY"), ("saudi arabia", "SA"),
  ("united arab emirates", "AE"), ("uae", "AE"), ("qatar", "QA"),
  ("kuwait", "KW"), ("bahrain", "BH"), ("oman", "OM"), ("yemen", "YE"),
  ("thailand", "TH"), ("vietnam", "VN"), ("cambodia", "KH"), ("laos", "LA"),
  ("myanmar", "MM"), ("burma", "MM"), ("malaysia", "MY"), ("singapore", "SG"),
  ("indonesia", "ID"), ("philippines", "PH"), ("brunei", "BN"),
  ("mongolia", "MN"), ("kazakhstan", "KZ"), ("uzbekistan", "UZ"),
  ("turkmenistan", "TM"), ("kyrgyzstan", "KG"), ("tajikistan", "TJ"),
  ("egypt", "EG"), ("libya", "LY"), ("tunisia", "TN"), ("algeria", "DZ"),
  ("morocco", "MA"), ("sudan", "SD"), ("south sudan", "SS"), ("ethiopia", "ET"),
  ("kenya", "KE"), ("uganda", "UG"), ("tanzania", "TZ"), ("rwanda", "RW"),
  ("burundi", "BI"), ("somalia", "SO"), ("djibouti", "DJ"), ("eritrea", "ER"),
  ("chad", "TD"), ("central african republic", "CF"), ("cameroon", "CM"),
  ("nigeria", "NG"), ("niger", "NE"), ("mali", "ML"), ("burkina faso", "BF"),
  ("senegal", "SN"), ("gambia", "GM"), ("guinea", "GN"),
  ("guinea-bissau", "GW"), ("sierra leone", "SL"), ("liberia", "LR"),
  ("ivory coast", "CI"), ("ghana", "GH"), ("togo", "TG"), ("benin", "BJ"),
  ("gabon", "GA"), ("equatorial guinea", "GQ"),
  ("sao tome and principe", "ST"), ("democratic republic of congo", "CD"),
  ("congo", "CG"), ("angola", "AO"), ("zambia", "ZM"), ("malawi", "MW"),
  ("mozambique", "MZ"), ("zimbabwe", "ZW"), ("botswana", "BW"),
  ("namibia", "NA"), ("lesotho", "LS"), ("swaziland", "SZ"),
  ("eswatini", "SZ"), ("madagascar", "MG"), ("mauritius", "MU"),
  ("seychelles", "SC"), ("comoros", "KM"), ("cape verde", "CV"),
  ("mexico", "MX"), ("guatemala", "GT"), ("belize", "BZ"),
  ("el salvador", "SV"), ("honduras", "HN"), ("nicaragua", "NI"),
  ("costa rica", "CR"), ("panama", "PA"),
  ("brazil", "BR"), ("argentina", "AR"), ("chile", "CL"), ("peru", "PE"),
  ("colombia", "CO"), ("venezuela", "VE"), ("ecuador", "EC"),
  ("bolivia", "BO"), ("paraguay", "PY"), ("uruguay", "UY"), ("guyana", "GY"),
  ("suriname", "SR"), ("french guiana", "GF"),
  ("cuba", "CU"), ("jamaica", "JM"), ("haiti", "HT"),
  ("dominican republic", "DO"), ("puerto rico", "PR"),
  ("trinidad and tobago", "TT"), ("barbados", "BB"), ("bahamas", "BS"),
  ("antigua and barbuda", "AG"), ("saint lucia", "LC"), ("grenada", "GD"),
  ("saint vincent and the grenadines", "VC"), ("dominica", "DM"),
  ("saint kitts and nevis", "KN"),
  ("fiji", "FJ"), ("papua new guinea", "PG"), ("solomon islands", "SB"),
  ("vanuatu", "VU"), ("samoa", "WS"), ("tonga", "TO"), ("kiribati", "KI"),
  ("tuvalu", "TV"), ("nauru", "NR"), ("palau", "PW"),
  ("marshall islands", "MH"), ("micronesia", "FM"),
  ("中国", "CN"), ("美国", "US"), ("英国", "GB"), ("法国", "FR"),
  ("德国", "DE"), ("日本", "JP"), ("韩国", "KR"), ("澳大利亚", "AU"),
  ("加拿大", "CA"), ("新西兰", "NZ"), ("新加坡", "SG"), ("马来西亚", "MY"),
  ("泰国", "TH"), ("印度", "IN"), ("俄罗斯", "RU"), ("意大利", "IT"),
  ("西班牙", "ES"), ("荷兰", "NL"), ("瑞士", "CH"), ("瑞典", "SE"),
  ("挪威", "NO"), ("丹麦", "DK"), ("芬兰", "FI"), ("巴西", "BR"),
  ("阿根廷", "AR"), ("墨西哥", "MX")]

/-- Python `str.split(sep)` for a one-character separator, keeping empty
segments (structural recursion over the character list). -/
def splitCharAux (sep : Char) : List Char → List Char → List (List Char)
  | cur, [] => [cur.reverse]
  | cur, c :: cs =>
    if c = sep then cur.reverse :: splitCharAux sep [] cs
    else splitCharAux sep (c :: cur) cs

def pySplit (s : String) (sep : Char) : List String :=
  (splitCharAux sep [] s.data).map String.mk

example : pySplit "a,,b" ',' = ["a", "", "b"] := by decide
example : pySplit "" ',' = [""] := by decide

/-- The locality/region/postcode chain `parse_address` applies to a single
remaining part: AU pattern, then generic trailing postcode, then the whole
part as the locality.  Returns the key/value pairs in Python-dict insertion
order. -/
def localityChain (lastPart : String) : List (String × String) :=
  match auMatch lastPart.data with
  | some (loc, reg, post) =>
    [("addressLocality", pyStrip loc), ("addressRegion", reg), ("postalCode", post)]
  | none =>
    match postalMatch lastPart.data with
    | some (loc, post) => [("addressLocality", pyStrip loc), ("postalCode", post)]
    | none => [("addressLocality", lastPart)]

/-- The final stage of `utils.parse_address`: drop pairs whose value is
empty or whitespace-only (`if v and v.strip()`), then re-add `@type` if it
went missing. -/
def finalizeAddress (base : List (String × String)) : List (String × String) :=
  let filtered := base.filter fun kv => kv.2 ≠ "" && pyStrip kv.2 ≠ ""
  if filtered.any (fun kv => kv.1 = "@type") then filtered
  else filtered ++ [("@type", "PostalAddress")]

/-- `utils.parse_address`, returning the result dictionary as a key/value
list in Python-dict insertion order. -/
def parseAddress (s : String) : List (String × String) :=
  if s = "" then [("@type", "PostalAddress")]
  else
    let address := cleanText s
    let parts := (pySplit address ',').map pyStrip
    let resHead : List (String × String) := [("@type", "PostalAddress")]
    -- country extraction from the last part
    let (countryKV, parts1) :=
      match parts.getLast? with
      | none => (([] : List (String × String)), parts)
      | some lastP =>
        let pc := pyStrip (pyLower lastP)
        match countryMapping.lookup pc with
        | some code => ([("addressCountry", code)], parts.dropLast)
        | none =>
          if pc.length = 2 && pc.data.all pyIsAsciiAlpha then
            ([("addressCountry", pyUpper pc)], parts.dropLast)
          else (([] : List (String × String)), parts)
    -- locality / region / postcode extraction
    let (locKVs, parts2) :=
      if 2 ≤ parts1.length then
        let stateZipPart := pyStrip (parts1.getLast?.getD "")
        let cityPart := pyStrip ((parts1.dropLast.getLast?).getD "")
        match usStateZipMatch stateZipPart.data with
        | some (st, zip) =>
          ([("addressLocality", cityPart), ("addressRegion", st), ("postalCode", zip)],
            parts1.dropLast.dropLast)
        | none => (localityChain stateZipPart, parts1.dropLast)
      else if 1 ≤ parts1.length then
        (localityChain (pyStrip (parts1.getLast?.getD "")), parts1.dropLast)
      else (([] : List (String × String)), parts1)
    -- street address from the remaining parts
    let streetParts := (parts2.map pyStrip).filter (· ≠ "")
    let streetKV : List (String × String) :=
      if streetParts ≠ [] then [("streetAddress", ", ".intercalate streetParts)] else []
    finalizeAddress (resHead ++ countryKV ++ locKVs ++ streetKV)

example : parseAddress "123 Main St, New York, NY 10001, USA" =
    [("@type", "PostalAddress"), ("addressCountry", "US"),
     ("addressLocality", "New York"), ("addressRegion", "NY"),
     ("postalCode", "10001"), ("streetAddress", "123 Main St")] := by decide

example : parseAddress "23 Smith St, Warragul VIC 3820, Australia" =
    [("@type", "PostalAddress"), ("addressCountry", "AU"),
     ("addressLocality", "Warragul"), ("addressRegion", "VIC"),
     ("postalCode", "3820"), ("streetAddress", "23 Smith St")] := by decide

/-! ## `crawler._convert_to_24h_format` -/

/-- Decimal digit accumulation (`int(...)` on a digit run). -/
def digitsVal (l : List Char) : Nat :=
  l.foldl (fun a c => 10 * a + (c.val.toNat - 48)) 0

def digitChar (n : Nat) : Char := Char.ofNat (48 + n)

/-- Decimal rendering with explicit fuel (kernel-reducible). -/
def decStrAux : Nat → Nat → List Char
  | 0, _ => []
  | fuel + 1, n =>
    if n < 10 then [digitChar n] else decStrAux fuel (n / 10) ++ [digitChar (n % 10)]

def decStr (n : Nat) : String := String.mk (decStrAux (n + 1) n)

/-- Python `f"{n:02d}"` for a nonnegative value. -/
def pad2 (n : Nat) : String :=
  if n < 10 then String.mk ('0' :: (decStr n).data) else decStr n

/-- `re.match(r'^\d{2}:\d{2}:\d{2}$', ·)`. -/
def isHHMMSS (l : List Char) : Bool :=
  match l with
  | [a, b, c, d, e, f, g, h] =>
    pyIsDigit a && pyIsDigit b && c == ':' && pyIsDigit d && pyIsDigit e &&
      f == ':' && pyIsDigit g && pyIsDigit h
  | _ => false

/-- `re.match(r'^(\d{1,2})(?::(\d{2}))?\s*([AP]M)$', ·, re.IGNORECASE)`:
returns (hour, minute, isPM). -/
def ampmMatch (l : List Char) : Option (Nat × Nat × Bool) :=
  let ds := l.takeWhile pyIsDigit
  if ds.length = 0 || 2 < ds.length then none
  else
    let rest := l.drop ds.length
    let minPart : Option (Nat × List Char) :=
      match rest with
      | ':' :: t =>
        if (t.take 2).length = 2 && (t.take 2).all pyIsDigit then
          some (digitsVal (t.take 2), t.drop 2)
        else none
      | _ => some (0, rest)
    match minPart with
    | none => none
    | some (minute, rest2) =>
      match rest2.dropWhile pyIsSpace with
      | [p, m] =>
        if (p == 'A' || p == 'a' || p == 'P' || p == 'p') && (m == 'M' || m == 'm') then
          some (digitsVal ds, minute, p == 'P' || p == 'p')
        else none
      | _ => none

/-- `re.match(r'^(\d{1,2}):(\d{2})$', ·)`. -/
def hmMatch (l : List Char) : Option (Nat × Nat) :=
  let ds := l.takeWhile pyIsDigit
  if ds.length = 0 || 2 < ds.length then none
  else
    match l.drop ds.length with
    | ':' :: t =>
      if t.length = 2 && t.all pyIsDigit then some (digitsVal ds, digitsVal t) else none
    | _ => none

/-- `crawler._convert_to_24h_format`: already-`HH:MM:SS` input passes
through, `h[:mm] AM|PM` converts (12 AM → 0, 12 PM stays, other PM +12),
`H:MM` and a bare hour are zero padded, anything else is returned unchanged
(after the initial `strip`). -/
def convertTo24h (timeStr : String) : String :=
  if timeStr = "" then timeStr
  else
    let t := pyStrip timeStr
    if isHHMMSS t.data then t
    else
      match ampmMatch t.data with
      | some (h, m, isPM) =>
        let h2 := if isPM then (if h ≠ 12 then h + 12 else h)
                  else (if h = 12 then 0 else h)
        pad2 h2 ++ ":" ++ pad2 m ++ ":00"
      | none =>
        match hmMatch t.data with
        | some (h, m) => pad2 h ++ ":" ++ pad2 m ++ ":00"
        | none =>
          if t.data ≠ [] && t.data.all pyIsDigit && t.data.length ≤ 2 then
            pad2 (digitsVal t.data) ++ ":00:00"
          else t

example : convertTo24h "9:30 PM" = "21:30:00" := by decide
example : convertTo24h "12:00 AM" = "00:00:00" := by decide
example : convertTo24h "14:00" = "14:00:00" := by decide
example : convertTo24h "12 pm" = "12:00:00" := by decide
example : convertTo24h "7" = "07:00:00" := by decide
example : convertTo24h "09:00:00" = "09:00:00" := by decide
example : convertTo24h "noon" = "noon" := by decide

/-! ## `crawler._format_opening_hours` -/

/-- The crawler's Chinese/abbreviated day-name mapping. -/
def dayMapping : List (String × String) := [
  ("星期一", "Monday"), ("周一", "Monday"), ("Mon", "Monday"),
  ("星期二", "Tuesday"), ("周二", "Tuesday"), ("Tue", "Tuesday"),
  ("星期三", "Wednesday"), ("周三", "Wednesday"), ("Wed", "Wednesday"),
  ("星期四", "Thursday"), ("周四", "Thursday"), ("Thu", "Thursday"),
  ("星期五", "Friday"), ("周五", "Friday"), ("Fri", "Friday"),
  ("星期六", "Saturday"), ("周六", "Saturday"), ("Sat", "Saturday"),
  ("星期日", "Sunday"), ("周日", "Sunday"), ("Sun", "Sunday")]

/-- `day_mapping.get(day, day)`. -/
def mapDay (d : String) : String := (dayMapping.lookup d).getD d

/-- One raw opening-hours record handed to `_format_opening_hours`
(`{day, opens, closes, closed}`). -/
structure HourEntry where
  day : String
  opens : String
  closes : String
  closed : Bool
deriving DecidableEq, Repr

/-- The records `_format_opening_hours` actually processes: closed days are
skipped, as are records with a falsy `opens` or `closes`; the day name is
mapped and both times converted.  Output tuples are (day, opens, closes). -/
def processedEntries (l : List HourEntry) : List (String × String × String) :=
  l.filterMap fun e =>
    if e.closed then none
    else if e.opens = "" || e.closes = "" then none
    else some (mapDay e.day, convertTo24h e.opens, convertTo24h e.closes)

/-- `time_groups` update: append the day to the group keyed by
(opens, closes), creating the group at the end on first sight (Python dict
insertion-order semantics). -/
def addGroup : List ((String × String) × List String) → (String × String) → String →
    List ((String × String) × List String)
  | [], k, d => [(k, [d])]
  | (k', ds) :: t, k, d =>
    if k' = k then (k', ds ++ [d]) :: t else (k', ds) :: addGroup t k d

def timeGroups (l : List HourEntry) : List ((String × String) × List String) :=
  (processedEntries l).foldl (fun acc p => addGroup acc p.2 p.1) []

/-- `dayOfWeek` is a bare string for a one-day group and a list otherwise
(`days if len(days) > 1 else days[0]`). -/
inductive DayOfWeek where
  | one (d : String)
  | many (ds : List String)
deriving DecidableEq, Repr

structure OpeningSpec where
  dayOfWeek : DayOfWeek
  opens : String
  closes : String
deriving DecidableEq, Repr

def mkDayOfWeek : List String → DayOfWeek
  | [d] => .one d
  | ds => .many ds

/-- `crawler._format_opening_hours`. -/
def formatOpeningHours (l : List HourEntry) : List OpeningSpec :=
  (timeGroups l).map fun g => ⟨mkDayOfWeek g.2, g.1.1, g.1.2⟩

example :
    formatOpeningHours
      [⟨"周一", "9:00 AM", "5:00 PM", false⟩,
       ⟨"周二", "9:00 AM", "5:00 PM", false⟩,
       ⟨"周三", "10:00 AM", "2:00 PM", false⟩,
       ⟨"周日", "", "", true⟩] =
    [⟨.many ["Monday", "Tuesday"], "09:00:00", "17:00:00"⟩,
     ⟨.one "Wednesday", "10:00:00", "14:00:00"⟩] := by decide

/-! ## Python truthiness helpers -/

/-- Truthiness of an optional string (`None` and `""` are falsy). -/
def pyTruthyStr : Option String → Bool
  | none => false
  | some s => s ≠ ""

/-- Python `a or b` on optional strings: `a` when truthy, else `b` as-is. -/
def pyOrStr (a b : Option String) : Option String :=
  if pyTruthyStr a then a else b

/-- Truthiness of an optional float (`None` and `0.0` are falsy). -/
def pyTruthyQ : Option ℚ → Bool
  | none => false
  | some q => q ≠ 0

/-- Truthiness of an optional int (`None` and `0` are falsy). -/
def pyTruthyNat : Option Nat → Bool
  | none => false
  | some n => n ≠ 0

/-! ## `models.py` schema shapes (the fields the generator populates) -/

structure PostalAddressL where
  streetAddress : Option String
  addressLocality : Option String
  addressRegion : Option String
  postalCode : Option String
  addressCountry : Option String
  extendedAddress : Option String
deriving DecidableEq, Repr

/-- Coordinates hold the decimal literals matched by the URL patterns
(`float(...)` on a `-?\d+\.\d+` match never raises, so the literal fully
determines the stored value). -/
structure GeoCoordinatesL where
  latitude : String
  longitude : String
deriving DecidableEq, Repr

structure AggregateRatingL where
  ratingValue : Option ℚ
  ratingCount : Option Nat
  bestRating : ℚ
deriving DecidableEq, Repr

structure MakesOfferL where
  name : Option String
deriving DecidableEq, Repr

/-- `OpeningHoursSpecification` as pydantic validates it: `dayOfWeek` is
required (a `None` raises and the generator skips the record). -/
structure OHSpecL where
  dayOfWeek : DayOfWeek
  opens : Option String
  closes : Option String
deriving DecidableEq, Repr

structure LocalBusinessSchemaL where
  name : String
  address : PostalAddressL
  description : Option String
  telephone : Option String
  url : Option String
  geo : Option GeoCoordinatesL
  openingHoursSpecification : Option (List OHSpecL)
  makesOffer : Option (List MakesOfferL)
  image : Option (List String)
  aggregateRating : Option AggregateRatingL
  priceRange : Option String
  sameAs : Option (List String)
deriving DecidableEq, Repr

/-- One element of `business_data['opening_hours']` as the generator reads
it: whether the dict has an `'@type'` key, and its `dayOfWeek`/`opens`/
`closes` values. -/
structure OHDict where
  hasAtType : Bool
  dayOfWeek : Option DayOfWeek
  opens : Option String
  closes : Option String
deriving DecidableEq, Repr

/-- The crawler-produced `business_data` record, with the fields
`generate_schema` reads. -/
structure BusinessData where
  name : Option String
  address : Option String
  extendedAddress : Option String
  description : Option String
  website : Option String
  phone : Option String
  currentUrl : Option String
  originalUrl : Option String
  priceRange : Option String
  businessType : Option String
  rating : Option ℚ
  reviewCount : Option Nat
  images : Option (List String)
  openingHours : Option (List OHDict)
deriving DecidableEq, Repr

/-! ## `schema_generator._extract_coordinates` -/

/-- Run an anchored check at every position, leftmost match first
(`re.search`). -/
def searchWith (check : List Char → Option α) : List Char → Option α
  | [] => check []
  | l@(_ :: t) =>
    match check l with
    | some r => some r
    | none => searchWith check t

/-- `-?\d+\.\d+` at the head of the list: the matched literal and the rest. -/
def decimalLit (l : List Char) : Option (List Char × List Char) :=
  let (sign, l1) : List Char × List Char :=
    match l with
    | '-' :: t => (['-'], t)
    | _ => ([], l)
  let d1 := l1.takeWhile pyIsDigit
  if d1 = [] then none
  else
    match l1.drop d1.length with
    | '.' :: t2 =>
      let d2 := t2.takeWhile pyIsDigit
      if d2 = [] then none
      else some (sign ++ d1 ++ '.' :: d2, t2.drop d2.length)
    | _ => none

/-- `@(-?\d+\.\d+),(-?\d+\.\d+)` anchored at the current position. -/
def coordCheck (l : List Char) : Option (String × String) :=
  match l with
  | '@' :: t =>
    match decimalLit t with
    | some (lat, rest) =>
      match rest with
      | ',' :: t2 => (decimalLit t2).map fun p => (String.mk lat, String.mk p.1)
      | _ => none
    | none => none
  | _ => none

/-- `!3d(-?\d+\.\d+)!4d(-?\d+\.\d+)` anchored at the current position. -/
def bangCheck (l : List Char) : Option (String × String) :=
  match l with
  | '!' :: '3' :: 'd' :: t =>
    match decimalLit t with
    | some (lat, rest) =>
      match rest with
      | '!' :: '4' :: 'd' :: t2 => (decimalLit t2).map fun p => (String.mk lat, String.mk p.1)
      | _ => none
    | none => none
  | _ => none

/-- `schema_generator._extract_coords_from_url`. -/
def extractCoordsFromUrl (url : String) : Option GeoCoordinatesL :=
  if url = "" then none
  else
    match searchWith coordCheck url.data with
    | some (la, lo) => some ⟨la, lo⟩
    | none => (searchWith bangCheck url.data).map fun p => ⟨p.1, p.2⟩

/-- `schema_generator._extract_coordinates`: `current_url` first, then
`original_url`. -/
def extractCoordinates (bd : BusinessData) : Option GeoCoordinatesL :=
  let cu := bd.currentUrl.getD ""
  match (if cu ≠ "" then extractCoordsFromUrl cu else none) with
  | some c => some c
  | none =>
    let ou := bd.originalUrl.getD ""
    if ou ≠ "" then extractCoordsFromUrl ou else none

example : extractCoordsFromUrl "https://g/maps/@-37.8770935,145.1652529,17z" =
    some ⟨"-37.8770935", "145.1652529"⟩ := by decide
example : extractCoordsFromUrl "https://g/maps/!3d-37.8770935!4d145.1652529" =
    some ⟨"-37.8770935", "145.1652529"⟩ := by decide

/-! ## `schema_generator.generate_schema` -/

/-- The generator's re-wrap of already-structured opening hours: a record
whose `dayOfWeek` is absent fails pydantic validation and is skipped. -/
def rewrapOpeningHours (ds : List OHDict) : List OHSpecL :=
  ds.filterMap fun d =>
    match d.dayOfWeek with
    | none => none
    | some dw => some ⟨dw, d.opens, d.closes⟩

/-- `SchemaGenerator.generate_schema`. -/
def generateSchema (bd : BusinessData) (originalUrl : String)
    (customDescription : Option String) : LocalBusinessSchemaL :=
  let businessName :=
    match bd.name with
    | some n => if n ≠ "" && pyStrip n ≠ "" then n else "Business Name Not Available"
    | none => "Business Name Not Available"
  let addressText := bd.address.getD ""
  let address : PostalAddressL :=
    if addressText ≠ "" then
      let parsed := parseAddress addressText
      ⟨parsed.lookup "streetAddress", parsed.lookup "addressLocality",
        parsed.lookup "addressRegion", parsed.lookup "postalCode",
        parsed.lookup "addressCountry", bd.extendedAddress⟩
    else ⟨none, none, none, none, none, bd.extendedAddress⟩
  let description := pyOrStr customDescription bd.description
  let url := pyOrStr bd.website (some originalUrl)
  let geo := extractCoordinates bd
  let aggregateRating : Option AggregateRatingL :=
    if pyTruthyQ bd.rating || pyTruthyNat bd.reviewCount then
      some ⟨bd.rating, bd.reviewCount, 5⟩
    else none
  let makesOffer : Option (List MakesOfferL) :=
    if pyTruthyStr bd.businessType then some [⟨bd.businessType⟩] else none
  let image : Option (List String) :=
    match bd.images with
    | some l => if l ≠ [] then some l else none
    | none => none
  let sameAs : Option (List String) :=
    match bd.website with
    | some w => if w ≠ "" then some [w] else none
    | none => none
  let ohs : Option (List OHSpecL) :=
    match bd.openingHours with
    | some (d0 :: ds) =>
      if d0.hasAtType then
        match rewrapOpeningHours (d0 :: ds) with
        | [] => none
        | l => some l
      else none
    | _ => none
  ⟨businessName, address, description, bd.phone, url, geo, ohs, makesOffer,
    image, aggregateRating, bd.priceRange, sameAs⟩

/-- A business record with every field absent (used at several witnesses). -/
def emptyBD : BusinessData :=
  ⟨none, none, none, none, none, none, none, none, none, none, none, none,
    none, none⟩

example : (generateSchema emptyBD "http://x" none).name =
    "Business Name Not Available" := by decide
example : (generateSchema { emptyBD with description := some "S" } "http://x"
    (some "")).description = some "S" := by decide
example : (generateSchema { emptyBD with description := some "S" } "http://x"
    (some "mine")).description = some "mine" := by decide

/-- `main.py` cache-hit rendering (lines 244-250): the cached schema is
dumped and, when the request's `description` is truthy, overridden. -/
def applyCachedDescriptionOverride (cached : LocalBusinessSchemaL)
    (reqDesc : Option String) : LocalBusinessSchemaL :=
  if pyTruthyStr reqDesc then { cached with description := reqDesc } else cached

/-! ## `concurrency_limiter.RedisConcurrencyLimiter` (claim C4)

The Lua script runs atomically: read `SCARD`, reject when it is at or above
the limit, else `SADD` a fresh lease id.  Lease ids are `uuid4` values,
modeled as naturals; the lease set is a `Finset`. -/

inductive Bucket where
  | cacheRequests
  | crawlerRequests
deriving DecidableEq, Repr

/-- Default limits (`CACHE_CONCURRENCY_LIMIT` 1000, `CRAWLER_CONCURRENCY_LIMIT` 50). -/
def bucketLimit : Bucket → Nat
  | .cacheRequests => 1000
  | .crawlerRequests => 50

/-- `retry_after` chosen on rejection: 3 s for cache requests, 10 s for
crawler requests. -/
def bucketRetryAfter : Bucket → Nat
  | .cacheRequests => 3
  | .crawlerRequests => 10

inductive AcqResult where
  /-- The script returned `{"error", current_count}` and Python raised
  `ConcurrencyLimitExceeded(..., retry_after)`. -/
  | rejected (currentCount : Nat) (retryAfter : Nat)
  /-- The lease id was added; the new lease set. -/
  | acquired (leases : Finset Nat)
deriving DecidableEq

/-- The atomic check-and-reserve of `acquire_connection`. -/
def acquireConnection (b : Bucket) (s : Finset Nat) (leaseId : Nat) : AcqResult :=
  if bucketLimit b ≤ s.card then .rejected s.card (bucketRetryAfter b)
  else .acquired (insert leaseId s)

/-- `_release_connection`: `SREM` of the lease id. -/
def releaseConnection (s : Finset Nat) (leaseId : Nat) : Finset Nat :=
  s.erase leaseId

inductive LimOp where
  | acquire (leaseId : Nat)
  | release (leaseId : Nat)
deriving DecidableEq

/-- A client's sequence of acquire/release operations against one bucket;
a rejected acquisition leaves the lease set unchanged. -/
def runLimOps (b : Bucket) : List LimOp → Finset Nat → Finset Nat
  | [], s => s
  | .acquire i :: ops, s =>
    match acquireConnection b s i with
    | .rejected _ _ => runLimOps b ops s
    | .acquired s2 => runLimOps b ops s2
  | .release i :: ops, s => runLimOps b ops (releaseConnection s i)

/-! ## `main.extract_business_info` exception flow (claim C3)

`acquire_connection` is an `@asynccontextmanager` whose `yield` sits inside
its `try/except` chain.  When the `async with` body raises, `__aexit__`
throws the exception into the generator at the `yield`; the `finally`
releases the lease and the exception then hits the generator's own
handlers: `ConcurrencyLimitExceeded` is re-raised, `redis.RedisError`
becomes `ConcurrencyLimitExceeded(..., retry_after=10)`, and any other
`Exception` becomes `ConcurrencyLimitExceeded(..., retry_after=5)`.
Because the generator raises a *different* exception than the one thrown
in, `contextlib` propagates the new one, replacing the body's exception. -/

inductive PyExc where
  /-- `ConcurrencyLimitExceeded(message, retry_after)`. -/
  | cle (msg : String) (retryAfter : Nat)
  /-- `redis.RedisError`. -/
  | redisError (msg : String)
  /-- any other `Exception`. -/
  | exc (msg : String)
deriving DecidableEq, Repr

/-- The `str(e)` of a modeled exception. -/
def PyExc.message : PyExc → String
  | .cle m _ => m
  | .redisError m => m
  | .exc m => m

/-- `acquire_connection` as an exception transformer around the body of the
`async with` block: `admission` is the outcome of the sweep plus the atomic
script, `body` the outcome of the block.  Every error that escapes is a
`ConcurrencyLimitExceeded`. -/
def acquireConnectionCM (admission : Except PyExc Unit)
    (body : Except PyExc α) : Except PyExc α :=
  match admission with
  | .error e =>
    .error (match e with
      | .cle m r => .cle m r
      | .redisError _ => .cle "并发控制服务暂时不可用，请稍后重试" 10
      | .exc _ => .cle "并发控制服务发生错误，请稍后重试" 5)
  | .ok _ =>
    match body with
    | .ok a => .ok a
    | .error e =>
      .error (match e with
        | .cle m r => .cle m r
        | .redisError _ => .cle "并发控制服务暂时不可用，请稍后重试" 10
        | .exc _ => .cle "并发控制服务发生错误，请稍后重试" 5)

/-- The JSON body/status pairs the endpoint can produce. -/
structure HttpResponse where
  status : Nat
  success : Option Bool
  error : Option String
  errorCode : Option String
  retryAfterHeader : Option Nat
deriving DecidableEq, Repr

/-- The app-level `ConcurrencyLimitExceeded` handler: HTTP 429 with
`error_code CONCURRENCY_LIMIT_EXCEEDED` and a `Retry-After` header. -/
def cleHandler (_msg : String) (retryAfter : Nat) : HttpResponse :=
  ⟨429, some false, some "并发限制已达上限", some "CONCURRENCY_LIMIT_EXCEEDED",
    some retryAfter⟩

/-- `POST /api/extract` (`main.extract_business_info`) as a function of the
outcomes of its effectful steps.  `cacheBody` is the body of the
`cache_requests` block (the cache read), `crawlerBody` the body of the
`crawler_requests` block (browser restart + crawl + schema generation +
cache write, yielding the rendered script). -/
def extractEndpoint (urlValid : Bool) (forceRefresh : Bool)
    (cacheAdmission : Except PyExc Unit)
    (cacheBody : Except PyExc (Option LocalBusinessSchemaL))
    (crawlerAdmission : Except PyExc Unit)
    (crawlerBody : Except PyExc String) : HttpResponse :=
  if ¬ urlValid then ⟨400, none, none, none, none⟩
  else
    let cacheStep : Except PyExc (Option LocalBusinessSchemaL) :=
      if forceRefresh then .ok none
      else acquireConnectionCM cacheAdmission cacheBody
    match cacheStep with
    | .error e =>
      -- only `ConcurrencyLimitExceeded` escapes the wrapper; the endpoint
      -- re-raises it and the app-level handler answers
      match e with
      | .cle m r => cleHandler m r
      | _ => ⟨500, none, none, none, none⟩
    | .ok (some _) => ⟨200, some true, none, none, none⟩
    | .ok none =>
      match acquireConnectionCM crawlerAdmission crawlerBody with
      | .ok _ => ⟨200, some true, none, none, none⟩
      | .error e =>
        match e with
        | .cle m r => cleHandler m r
        | e2 =>
          -- `except Exception` branch: `{success: false, error: str(e)}` at 200
          ⟨200, some false, some e2.message, none, none⟩

/-! ## `stats.APIStats` (claim C5)

Timestamps are `time.time()` values, modeled as rationals; the instance is
`APIStats(window_minutes=60)` and `get_timeline_data` uses its default
`points=60`, so the window is 3600 s sliced into 60 buckets of 60 s. -/

structure StatEntry where
  timestamp : ℚ
  endpoint : String
  success : Bool
  responseTime : ℚ
deriving DecidableEq, Repr

def windowSeconds : ℚ := 3600

/-- `_cleanup_old_data`: pop entries from the front while older than the
cutoff. -/
def cleanupOldData (now : ℚ) (l : List StatEntry) : List StatEntry :=
  l.dropWhile fun e => decide (e.timestamp < now - windowSeconds)

structure WindowStats where
  requests : Nat
  success : Nat
  failures : Nat
deriving DecidableEq, Repr

/-- The `window` part of `get_current_stats`. -/
def getCurrentStatsWindow (now : ℚ) (l : List StatEntry) : WindowStats :=
  let c := cleanupOldData now l
  let s := (c.filter (·.success)).length
  ⟨c.length, s, c.length - s⟩

structure TimelinePoint where
  requests : Nat
  success : Nat
  failures : Nat
deriving DecidableEq, Repr

/-- One bucket of `get_timeline_data`: entries with
`point_start ≤ timestamp < point_end`. -/
def timelineBucket (cleaned : List StatEntry) (a b : ℚ) : TimelinePoint :=
  let sel := cleaned.filter fun e => decide (a ≤ e.timestamp) && decide (e.timestamp < b)
  ⟨sel.length, (sel.filter (·.success)).length, (sel.filter (fun e => !e.success)).length⟩

/-- The buckets `[a, a+60), [a+60, a+120), …`: the source computes
`point_start = start_time + i * interval` for `i in range(points)`; over
exact rationals that is the same sequence as iterated addition of the
60-second interval. -/
def timelineAux (cleaned : List StatEntry) : Nat → ℚ → List TimelinePoint
  | 0, _ => []
  | n + 1, a => timelineBucket cleaned a (a + 60) :: timelineAux cleaned n (a + 60)

/-- `get_timeline_data` (with its default 60 points): clean up, return `[]`
on an empty series, else slice `[now - 3600, now)` into 60 intervals. -/
def getTimelineData (now : ℚ) (l : List StatEntry) : List TimelinePoint :=
  let cleaned := cleanupOldData now l
  if cleaned = [] then [] else timelineAux cleaned 60 (now - windowSeconds)

/-- The sum of the per-bucket request counts of the timeline view. -/
def timelineRequestsSum (now : ℚ) (l : List StatEntry) : Nat :=
  ((getTimelineData now l).map (·.requests)).sum

/-! ## `cache.RedisCache.set` / `cache.MemoryCache.set` (claim C10)

Both implementations compute `ttl = ttl_hours or self.default_ttl_hours`
(so a requested `0` falls back to the default) and an expiry of
`now + ttl` hours; both classes default `default_ttl_hours=24`. -/

def effectiveTtlHours (ttlHours : Option Nat) (defaultTtl : Nat) : Nat :=
  match ttlHours with
  | some t => if t ≠ 0 then t else defaultTtl
  | none => defaultTtl

/-- What one `RedisCache.set` call writes: the schema under the data key
with `setex` TTL `ttl*3600` seconds, and the metadata hash with the same
expiry and `expires_at = now + ttl` hours (seconds here). -/
structure RedisWrite where
  key : String
  data : LocalBusinessSchemaL
  ttlSeconds : Nat
  expiresAt : ℚ
deriving DecidableEq, Repr

def redisCacheSet (defaultTtl : Nat) (now : ℚ) (url : String)
    (schema : LocalBusinessSchemaL) (ttlHours : Option Nat) : RedisWrite :=
  let ttl := effectiveTtlHours ttlHours defaultTtl
  ⟨url, schema, ttl * 3600, now + ttl * 3600⟩

/-- The entry one `MemoryCache.set` call stores. -/
structure MemCacheEntry where
  url : String
  data : LocalBusinessSchemaL
  cachedAt : ℚ
  expiresAt : ℚ
  hitCount : Nat
deriving DecidableEq, Repr

def memCacheSet (defaultTtl : Nat) (now : ℚ) (url : String)
    (schema : LocalBusinessSchemaL) (ttlHours : Option Nat) : MemCacheEntry :=
  let ttl := effectiveTtlHours ttlHours defaultTtl
  ⟨url, schema, now, now + ttl * 3600, 0⟩

/-! # Claim theorems -/

/-! ## C8 : list utilities for the `clean_text` idempotence analysis -/

theorem head_dropWhile {α : Type _} (p : α → Bool) (l : List α) :
    ∀ c, (l.dropWhile p).head? = some c → p c = false := by
  induction l with
  | nil => intro c h; cases h
  | cons x l ih =>
    intro c h
    by_cases hx : p x = true
    · rw [List.dropWhile_cons, if_pos hx] at h
      exact ih c h
    · rw [List.dropWhile_cons, if_neg hx] at h
      cases h
      exact Bool.eq_false_iff.mpr hx

theorem dropWhile_decomp {α : Type _} (p : α → Bool) (l : List α) :
    ∃ t, (∀ c ∈ t, p c = true) ∧ t ++ l.dropWhile p = l := by
  induction l with
  | nil => exact ⟨[], by simp, rfl⟩
  | cons x l ih =>
    by_cases hx : p x = true
    · obtain ⟨t, ht, happ⟩ := ih
      refine ⟨x :: t, ?_, ?_⟩
      · intro c hc
        rcases List.mem_cons.mp hc with rfl | hc2
        · exact hx
        · exact ht c hc2
      · rw [List.dropWhile_cons, if_pos hx, List.cons_append, happ]
    · exact ⟨[], by simp, by rw [List.dropWhile_cons, if_neg hx]; rfl⟩

theorem dropWhile_eq_self_of_head {α : Type _} (p : α → Bool) (l : List α)
    (h : ∀ c, l.head? = some c → p c = false) : l.dropWhile p = l := by
  cases l with
  | nil => rfl
  | cons x l =>
    rw [List.dropWhile_cons, if_neg]
    rw [h x rfl]
    simp

theorem dropWhile_eq_nil_of_all {α : Type _} (p : α → Bool) (l : List α)
    (h : ∀ c ∈ l, p c = true) : l.dropWhile p = [] := by
  induction l with
  | nil => rfl
  | cons x l ih =>
    rw [List.dropWhile_cons, if_pos (h x (List.mem_cons_self x l))]
    exact ih fun c hc => h c (List.mem_cons_of_mem _ hc)

theorem dropWhile_ne_nil_of_exists {α : Type _} (p : α → Bool) (l : List α)
    (h : ∃ c ∈ l, p c = false) : l.dropWhile p ≠ [] := by
  induction l with
  | nil => obtain ⟨c, hc, _⟩ := h; cases hc
  | cons x l ih =>
    by_cases hx : p x = true
    · rw [List.dropWhile_cons, if_pos hx]
      obtain ⟨c, hc, hpc⟩ := h
      rcases List.mem_cons.mp hc with rfl | hc2
      · rw [hx] at hpc; cases hpc
      · exact ih ⟨c, hc2, hpc⟩
    · rw [List.dropWhile_cons, if_neg hx]
      simp

theorem dropWhile_append_of_ne_nil {α : Type _} (p : α → Bool) (u v : List α)
    (h : u.dropWhile p ≠ []) : (u ++ v).dropWhile p = u.dropWhile p ++ v := by
  induction u with
  | nil => exact absurd rfl h
  | cons x u ih =>
    by_cases hx : p x = true
    · rw [List.dropWhile_cons, if_pos hx] at h ⊢
      rw [List.cons_append, List.dropWhile_cons, if_pos hx]
      exact ih h
    · rw [List.cons_append, List.dropWhile_cons, if_neg hx,
        List.dropWhile_cons, if_neg hx]
      rfl

theorem dropWhile_append_of_head {α : Type _} (p : α → Bool) (u v : List α)
    (h : ∀ c, v.head? = some c → p c = false) :
    (u ++ v).dropWhile p = u.dropWhile p ++ v := by
  induction u with
  | nil =>
    show v.dropWhile p = v
    exact dropWhile_eq_self_of_head p v h
  | cons x u ih =>
    by_cases hx : p x = true
    · rw [List.cons_append, List.dropWhile_cons, if_pos hx,
        List.dropWhile_cons, if_pos hx]
      exact ih
    · rw [List.cons_append, List.dropWhile_cons, if_neg hx,
        List.dropWhile_cons, if_neg hx]
      rfl

/-- Adjacent-pair predicate: `R` holds of every consecutive pair. -/
def adjAll (R : Char → Char → Bool) : List Char → Bool
  | a :: b :: t => R a b && adjAll R (b :: t)
  | _ => true

theorem adjAll_cons_eq (R : Char → Char → Bool) (a : Char) (l : List Char) :
    adjAll R (a :: l) =
      ((match l.head? with | some b => R a b | none => true) && adjAll R l) := by
  cases l with
  | nil => rfl
  | cons b t => rfl

theorem adjAll_tail {R : Char → Char → Bool} {a : Char} {l : List Char}
    (h : adjAll R (a :: l) = true) : adjAll R l = true := by
  rw [adjAll_cons_eq] at h
  simp only [Bool.and_eq_true] at h
  exact h.2

theorem adjAll_cons_head {R : Char → Char → Bool} {a : Char} {l : List Char}
    (h : adjAll R (a :: l) = true) :
    ∀ b, l.head? = some b → R a b = true := by
  intro b hb
  rw [adjAll_cons_eq, hb] at h
  simp only [Bool.and_eq_true] at h
  exact h.1

theorem adjAll_cons_of (R : Char → Char → Bool) (a : Char) (l : List Char)
    (h1 : ∀ b, l.head? = some b → R a b = true) (h2 : adjAll R l = true) :
    adjAll R (a :: l) = true := by
  rw [adjAll_cons_eq, h2]
  cases hl : l.head? with
  | none => rfl
  | some b =>
    show (R a b && true) = true
    rw [h1 b hl]
    rfl

theorem adjAll_append_right {R : Char → Char → Bool} (t l : List Char)
    (h : adjAll R (t ++ l) = true) : adjAll R l = true := by
  induction t with
  | nil => exact h
  | cons x t ih => exact ih (adjAll_tail h)

theorem adjAll_append_left {R : Char → Char → Bool} (t : List Char) :
    ∀ l, adjAll R (l ++ t) = true → adjAll R l = true := by
  intro l
  induction l with
  | nil => intro _; rfl
  | cons a l ih =>
    intro h
    cases l with
    | nil => rfl
    | cons b l2 =>
      rw [List.cons_append] at h
      have hab : R a b = true := adjAll_cons_head h b rfl
      have h2 : adjAll R (b :: l2) = true := ih (adjAll_tail h)
      show (R a b && adjAll R (b :: l2)) = true
      rw [hab, h2]
      rfl

theorem adjAll_append_singleton (R : Char → Char → Bool) (x : Char) :
    ∀ xs, adjAll R (xs ++ [x]) =
      (adjAll R xs &&
        (match xs.getLast? with | some y => R y x | none => true)) := by
  intro xs
  induction xs with
  | nil => rfl
  | cons a t ih =>
    cases t with
    | nil => simp [adjAll]
    | cons b t2 =>
      show (R a b && adjAll R ((b :: t2) ++ [x])) = _
      rw [ih]
      have hlast : (a :: b :: t2).getLast? = (b :: t2).getLast? := by
        rw [List.getLast?_cons_cons]
      rw [hlast]
      show _ = ((R a b && adjAll R (b :: t2)) && _)
      rw [Bool.and_assoc]

theorem adjAll_reverse (R : Char → Char → Bool) :
    ∀ l, adjAll (fun a b => R b a) l.reverse = adjAll R l := by
  intro l
  induction l with
  | nil => rfl
  | cons c l ih =>
    rw [List.reverse_cons, adjAll_append_singleton, ih, adjAll_cons_eq]
    rw [List.getLast?_reverse]
    cases hl : l.head? with
    | none => simp
    | some y =>
      show (adjAll R l && R c y) = (R c y && adjAll R l)
      rw [Bool.and_comm]

/-! ## C8 : facts about whitespace collapsing -/

/-- No two adjacent whitespace characters. -/
def noTwoWs (a b : Char) : Bool := !(pyIsSpace a && pyIsSpace b)

/-- Every whitespace character is preceded by an allowed character. -/
def wsPredR (a b : Char) : Bool := !pyIsSpace b || allowedTrail a

theorem collapse_mem (l : List Char) :
    ∀ (b : Bool), ∀ c ∈ collapseAux b l,
      c = ' ' ∨ (c ∈ l ∧ pyIsSpace c = false) := by
  induction l with
  | nil => intro b c hc; cases hc
  | cons x l ih =>
    intro b c hc
    by_cases hx : pyIsSpace x = true
    · cases b with
      | true =>
        have hc2 : c ∈ collapseAux true l := by simpa [collapseAux, hx] using hc
        rcases ih true c hc2 with h | ⟨h1, h2⟩
        · exact Or.inl h
        · exact Or.inr ⟨List.mem_cons_of_mem _ h1, h2⟩
      | false =>
        have hc2 : c ∈ ' ' :: collapseAux true l := by
          simpa [collapseAux, hx] using hc
        rcases List.mem_cons.mp hc2 with rfl | hc3
        · exact Or.inl rfl
        · rcases ih true c hc3 with h | ⟨h1, h2⟩
          · exact Or.inl h
          · exact Or.inr ⟨List.mem_cons_of_mem _ h1, h2⟩
    · have hc2 : c ∈ x :: collapseAux false l := by
        simpa [collapseAux, hx] using hc
      rcases List.mem_cons.mp hc2 with rfl | hc3
      · exact Or.inr ⟨List.mem_cons_self _ _, Bool.eq_false_iff.mpr hx⟩
      · rcases ih false c hc3 with h | ⟨h1, h2⟩
        · exact Or.inl h
        · exact Or.inr ⟨List.mem_cons_of_mem _ h1, h2⟩

theorem collapse_head_true (l : List Char) :
    ∀ c, (collapseAux true l).head? = some c → pyIsSpace c = false := by
  induction l with
  | nil => intro c h; cases h
  | cons x l ih =>
    intro c h
    by_cases hx : pyIsSpace x = true
    · rw [show collapseAux true (x :: l) = collapseAux true l from by
        simp [collapseAux, hx]] at h
      exact ih c h
    · rw [show collapseAux true (x :: l) = x :: collapseAux false l from by
        simp [collapseAux, hx], List.head?_cons] at h
      obtain rfl := Option.some.inj h
      exact Bool.eq_false_iff.mpr hx

theorem collapse_flag_indep (l : List Char)
    (h : ∀ c, l.head? = some c → pyIsSpace c = false) :
    collapseAux true l = collapseAux false l := by
  cases l with
  | nil => rfl
  | cons x t =>
    have hx := h x rfl
    simp [collapseAux, hx]

theorem collapse_noAdj (l : List Char) :
    ∀ b, adjAll noTwoWs (collapseAux b l) = true := by
  induction l with
  | nil => intro b; rfl
  | cons x l ih =>
    intro b
    by_cases hx : pyIsSpace x = true
    · cases b with
      | true => simpa [collapseAux, hx] using ih true
      | false =>
        rw [show collapseAux false (x :: l) = ' ' :: collapseAux true l from by
          simp [collapseAux, hx]]
        apply adjAll_cons_of
        · intro c2 hc2
          have hns := collapse_head_true l c2 hc2
          unfold noTwoWs
          rw [hns]
          simp
        · exact ih true
    · rw [show collapseAux b (x :: l) = x :: collapseAux false l from by
        simp [collapseAux, hx]]
      apply adjAll_cons_of
      · intro c2 _
        unfold noTwoWs
        rw [Bool.eq_false_iff.mpr hx]
        simp
      · exact ih false

theorem collapse_wsPred (l : List Char) (h : adjAll wsPredR l = true) :
    ∀ b, adjAll wsPredR (collapseAux b l) = true := by
  induction l with
  | nil => intro b; rfl
  | cons x l ih =>
    intro b
    have hl : adjAll wsPredR l = true := adjAll_tail h
    by_cases hx : pyIsSpace x = true
    · cases b with
      | true => simpa [collapseAux, hx] using ih hl true
      | false =>
        rw [show collapseAux false (x :: l) = ' ' :: collapseAux true l from by
          simp [collapseAux, hx]]
        apply adjAll_cons_of
        · intro c2 _
          unfold wsPredR
          rw [space_char_allowedTrail]
          simp
        · exact ih hl true
    · rw [show collapseAux b (x :: l) = x :: collapseAux false l from by
        simp [collapseAux, hx]]
      apply adjAll_cons_of
      · intro c2 hc2
        cases l with
        | nil => cases hc2
        | cons e t =>
          by_cases he : pyIsSpace e = true
          · rw [show collapseAux false (e :: t) = ' ' :: collapseAux true t from by
              simp [collapseAux, he], List.head?_cons] at hc2
            obtain rfl := Option.some.inj hc2
            have hpair : wsPredR x e = true := adjAll_cons_head h e rfl
            unfold wsPredR at hpair ⊢
            rw [he] at hpair
            simp only [Bool.not_true, Bool.false_or] at hpair
            rw [hpair]
            simp
          · rw [show collapseAux false (e :: t) = e :: collapseAux false t from by
              simp [collapseAux, he], List.head?_cons] at hc2
            obtain rfl := Option.some.inj hc2
            exact adjAll_cons_head h e rfl
      · exact ih hl false

theorem collapse_eq_self (l : List Char)
    (h2 : ∀ c ∈ l, pyIsSpace c = true → c = ' ')
    (h3 : adjAll noTwoWs l = true) :
    collapseAux false l = l := by
  induction l with
  | nil => rfl
  | cons x l ih =>
    have h2t : ∀ c ∈ l, pyIsSpace c = true → c = ' ' :=
      fun c hc => h2 c (List.mem_cons_of_mem _ hc)
    have h3t := adjAll_tail h3
    by_cases hx : pyIsSpace x = true
    · have hx2 : x = ' ' := h2 x (List.mem_cons_self _ _) hx
      rw [show collapseAux false (x :: l) = ' ' :: collapseAux true l from by
        simp [collapseAux, hx]]
      have hhead : ∀ c, l.head? = some c → pyIsSpace c = false := by
        intro c hc
        have hp := adjAll_cons_head h3 c hc
        unfold noTwoWs at hp
        rw [hx] at hp
        simpa using hp
      rw [collapse_flag_indep l hhead, ih h2t h3t, hx2]
    · rw [show collapseAux false (x :: l) = x :: collapseAux false l from by
        simp [collapseAux, hx]]
      rw [ih h2t h3t]

/-! ## C8 : the leading-junk removal only sees the post-junk suffix -/

theorem mem_of_mem_dropWhile {α : Type _} {p : α → Bool} {l : List α} {e : α}
    (h : e ∈ l.dropWhile p) : e ∈ l := by
  induction l with
  | nil => exact absurd h (by simp)
  | cons x l ih =>
    by_cases hx : p x = true
    · rw [List.dropWhile_cons, if_pos hx] at h
      exact List.mem_cons_of_mem _ (ih h)
    · rw [List.dropWhile_cons, if_neg hx] at h
      exact h

theorem mem_of_mem_dropR {p : Char → Bool} {l : List Char} {c : Char}
    (h : c ∈ dropR p l) : c ∈ l := by
  unfold dropR at h
  rw [List.mem_reverse] at h
  have h2 := mem_of_mem_dropWhile h
  rwa [List.mem_reverse] at h2

theorem mem_of_mem_pyStripL {l : List Char} {c : Char}
    (h : c ∈ pyStripL l) : c ∈ l :=
  mem_of_mem_dropWhile (mem_of_mem_dropR h)

theorem dropLead_collapse_flag (l : List Char) :
    ∀ b, dropLeadJunk (collapseAux b l) = dropLeadJunk (collapseAux false l) := by
  cases l with
  | nil => intro b; rfl
  | cons x t =>
    intro b
    by_cases hx : pyIsSpace x = true
    · cases b with
      | false => rfl
      | true =>
        rw [show collapseAux true (x :: t) = collapseAux true t from by
          simp [collapseAux, hx]]
        rw [show collapseAux false (x :: t) = ' ' :: collapseAux true t from by
          simp [collapseAux, hx]]
        unfold dropLeadJunk dropL
        rw [List.dropWhile_cons, if_pos (by decide : (!isWordChar ' ') = true)]
    · have hcb : ∀ b2 : Bool, collapseAux b2 (x :: t) = x :: collapseAux false t := by
        intro b2
        simp [collapseAux, hx]
      rw [hcb b, hcb false]

theorem dropLead_collapse_skip (v : List Char) :
    ∀ u, (∀ c ∈ u, isWordChar c = false) →
      dropLeadJunk (collapseAux false (u ++ v)) =
        dropLeadJunk (collapseAux false v) := by
  intro u
  induction u with
  | nil => intro _; rfl
  | cons x u ih =>
    intro hu
    have hxw : isWordChar x = false := hu x (List.mem_cons_self _ _)
    have hut : ∀ c ∈ u, isWordChar c = false :=
      fun c hc => hu c (List.mem_cons_of_mem _ hc)
    rw [List.cons_append]
    by_cases hx : pyIsSpace x = true
    · rw [show collapseAux false (x :: (u ++ v)) = ' ' :: collapseAux true (u ++ v)
        from by simp [collapseAux, hx]]
      show dropLeadJunk (' ' :: collapseAux true (u ++ v)) = _
      unfold dropLeadJunk dropL
      rw [List.dropWhile_cons, if_pos (by decide : (!isWordChar ' ') = true)]
      show dropLeadJunk (collapseAux true (u ++ v)) = _
      rw [dropLead_collapse_flag (u ++ v) true]
      exact ih hut
    · rw [show collapseAux false (x :: (u ++ v)) = x :: collapseAux false (u ++ v)
        from by simp [collapseAux, hx]]
      show dropLeadJunk (x :: collapseAux false (u ++ v)) = _
      unfold dropLeadJunk dropL
      rw [List.dropWhile_cons, if_pos (by rw [hxw]; rfl)]
      exact ih hut

/-! ## C8 : the fixed-point argument -/

theorem head?_append_left {α : Type _} (r t : List α) (c : α)
    (h : r.head? = some c) : (r ++ t).head? = some c := by
  cases r with
  | nil => cases h
  | cons a r2 => exact h

theorem pyStripL_eq_self (l : List Char)
    (hhead : ∀ c, l.head? = some c → pyIsSpace c = false)
    (hlast : ∀ c, l.getLast? = some c → pyIsSpace c = false) :
    pyStripL l = l := by
  unfold pyStripL dropL
  rw [dropWhile_eq_self_of_head pyIsSpace l hhead]
  unfold dropR
  rw [dropWhile_eq_self_of_head pyIsSpace l.reverse (by
    intro c hcc
    rw [List.head?_reverse] at hcc
    exact hlast c hcc)]
  exact List.reverse_reverse l

theorem removeCtrl_collapse_strip (l : List Char)
    (hc : ∀ c ∈ l, isCtrlChar c = false) :
    removeCtrl (collapseWs (pyStripL l)) = collapseWs (pyStripL l) := by
  unfold removeCtrl
  rw [List.filter_eq_self]
  intro c hcm
  rcases collapse_mem (pyStripL l) false c hcm with rfl | ⟨h1, _⟩
  · decide
  · rw [hc c (mem_of_mem_pyStripL h1)]
    rfl

theorem dropLead_core_restrict (l : List Char) :
    dropLeadJunk (collapseWs (pyStripL l)) =
      dropLeadJunk (collapseWs (pyStripL (l.dropWhile fun c => !isWordChar c))) := by
  obtain ⟨junk, hjunk, happ⟩ := dropWhile_decomp (fun c => !isWordChar c) l
  have hjunkw : ∀ c ∈ junk, isWordChar c = false := by
    intro c hcj
    have h := hjunk c hcj
    simpa using h
  cases hr : l.dropWhile (fun c => !isWordChar c) with
  | nil =>
    rw [hr, List.append_nil] at happ
    have hmem : ∀ c ∈ collapseWs (pyStripL l), (!isWordChar c) = true := by
      intro c hcm
      rcases collapse_mem (pyStripL l) false c hcm with rfl | ⟨h1, _⟩
      · decide
      · have hcl : c ∈ l := mem_of_mem_pyStripL h1
        rw [← happ] at hcl
        rw [hjunkw c hcl]
        rfl
    show dropLeadJunk (collapseWs (pyStripL l)) = dropLeadJunk (collapseWs (pyStripL []))
    unfold dropLeadJunk dropL
    rw [dropWhile_eq_nil_of_all _ _ hmem]
    rfl
  | cons e t =>
    have happ2 : junk ++ (e :: t) = l := by rw [← hr]; exact happ
    have hhead : isWordChar e = true := by
      have h := head_dropWhile (fun c => !isWordChar c) l e (by rw [hr]; rfl)
      simpa using h
    have hens : pyIsSpace e = false := word_not_space hhead
    have h1 : l.dropWhile pyIsSpace = junk.dropWhile pyIsSpace ++ (e :: t) := by
      rw [← happ2]
      exact dropWhile_append_of_head _ _ _ (by
        intro c hcc
        rw [List.head?_cons] at hcc
        obtain rfl := Option.some.inj hcc
        exact hens)
    have hne : (e :: t).reverse.dropWhile pyIsSpace ≠ [] := by
      apply dropWhile_ne_nil_of_exists
      exact ⟨e, List.mem_reverse.mpr (List.mem_cons_self _ _), hens⟩
    have h2 : dropR pyIsSpace (junk.dropWhile pyIsSpace ++ (e :: t)) =
        junk.dropWhile pyIsSpace ++ dropR pyIsSpace (e :: t) := by
      unfold dropR
      rw [List.reverse_append]
      rw [dropWhile_append_of_ne_nil _ _ _ hne]
      rw [List.reverse_append, List.reverse_reverse]
    have hstrip : pyStripL l =
        junk.dropWhile pyIsSpace ++ dropR pyIsSpace (e :: t) := by
      unfold pyStripL dropL
      rw [h1, h2]
    have hstripR : pyStripL (e :: t) = dropR pyIsSpace (e :: t) := by
      unfold pyStripL dropL
      rw [dropWhile_eq_self_of_head pyIsSpace (e :: t) (by
        intro c hcc
        rw [List.head?_cons] at hcc
        obtain rfl := Option.some.inj hcc
        exact hens)]
    have hjw2 : ∀ c ∈ junk.dropWhile pyIsSpace, isWordChar c = false :=
      fun c hcc => hjunkw c (mem_of_mem_dropWhile hcc)
    rw [hstrip, hstripR]
    exact dropLead_collapse_skip _ _ hjw2

/-- Strings with normalized whitespace, a word-character head, and an
allowed non-space last character are fixed points of `clean_text`. -/
theorem cleanList_fixed (r : List Char)
    (h1 : ∀ c ∈ r, isCtrlChar c = false)
    (h2 : ∀ c ∈ r, pyIsSpace c = true → c = ' ')
    (h3 : adjAll noTwoWs r = true)
    (h4 : ∀ c, r.head? = some c → isWordChar c = true)
    (h5 : ∀ c, r.getLast? = some c → allowedTrail c = true ∧ pyIsSpace c = false) :
    cleanList r = r := by
  have hheadns : ∀ c, r.head? = some c → pyIsSpace c = false :=
    fun c hcc => word_not_space (h4 c hcc)
  have hlastns : ∀ c, r.getLast? = some c → pyIsSpace c = false :=
    fun c hcc => (h5 c hcc).2
  have hstrip : pyStripL r = r := pyStripL_eq_self r hheadns hlastns
  have hcol : collapseWs r = r := collapse_eq_self r h2 h3
  have hctrl : removeCtrl r = r := by
    unfold removeCtrl
    rw [List.filter_eq_self]
    intro c hcm
    rw [h1 c hcm]
    rfl
  have hlead : dropLeadJunk r = r := by
    unfold dropLeadJunk dropL
    apply dropWhile_eq_self_of_head
    intro c hcc
    rw [h4 c hcc]
    rfl
  have htrail : dropTrailJunk r = r := by
    unfold dropTrailJunk dropR
    rw [dropWhile_eq_self_of_head _ r.reverse (by
      intro c hcc
      rw [List.head?_reverse] at hcc
      rw [(h5 c hcc).1]
      rfl)]
    exact List.reverse_reverse r
  show pyStripL (dropTrailJunk (dropLeadJunk (removeCtrl (collapseWs (pyStripL r))))) = r
  rw [hstrip, hcol, hctrl, hlead, htrail, hstrip]

/-- Under the no-control-characters and whitespace-predecessor hypotheses,
the output of `clean_text` satisfies the fixed-point conditions. -/
theorem cleanList_props (l : List Char)
    (hc : ∀ c ∈ l, isCtrlChar c = false)
    (hw : adjAll wsPredR (l.dropWhile fun c => !isWordChar c) = true) :
    (∀ c ∈ cleanList l, isCtrlChar c = false) ∧
    (∀ c ∈ cleanList l, pyIsSpace c = true → c = ' ') ∧
    adjAll noTwoWs (cleanList l) = true ∧
    (∀ c, (cleanList l).head? = some c → isWordChar c = true) ∧
    (∀ c, (cleanList l).getLast? = some c →
      allowedTrail c = true ∧ pyIsSpace c = false) := by
  have hmain : cleanList l =
      pyStripL (dropTrailJunk (dropLeadJunk (collapseWs
        (pyStripL (l.dropWhile fun c => !isWordChar c))))) := by
    show pyStripL (dropTrailJunk (dropLeadJunk (removeCtrl (collapseWs (pyStripL l))))) = _
    rw [removeCtrl_collapse_strip l hc, dropLead_core_restrict l]
  set rest := l.dropWhile (fun c => !isWordChar c) with hrestdef
  set cs := collapseWs (pyStripL rest) with hcsdef
  set w := dropLeadJunk cs with hwdef
  set y := dropTrailJunk w with hydef
  have hcs_mem : ∀ c ∈ cs, c = ' ' ∨ (c ∈ rest ∧ pyIsSpace c = false) := by
    intro c hcm
    rcases collapse_mem (pyStripL rest) false c hcm with h | ⟨hm1, hm2⟩
    · exact Or.inl h
    · exact Or.inr ⟨mem_of_mem_pyStripL hm1, hm2⟩
  have hcs_noAdj : adjAll noTwoWs cs = true := collapse_noAdj (pyStripL rest) false
  have hcs_wsPred : adjAll wsPredR cs = true := by
    apply collapse_wsPred
    obtain ⟨t1, _, happ1⟩ := dropWhile_decomp pyIsSpace rest
    have hA : adjAll wsPredR (rest.dropWhile pyIsSpace) = true := by
      apply adjAll_append_right t1
      rw [happ1]
      exact hw
    obtain ⟨t2, _, happ2⟩ := dropWhile_decomp pyIsSpace (rest.dropWhile pyIsSpace).reverse
    have happ3 : pyStripL rest ++ t2.reverse = rest.dropWhile pyIsSpace := by
      show dropR pyIsSpace (dropL pyIsSpace rest) ++ t2.reverse = _
      unfold dropR dropL
      conv_rhs => rw [← List.reverse_reverse (rest.dropWhile pyIsSpace), ← happ2,
        List.reverse_append]
    apply adjAll_append_left t2.reverse
    rw [happ3]
    exact hA
  obtain ⟨tw, _, happw⟩ := dropWhile_decomp (fun c => !isWordChar c) cs
  have happw2 : tw ++ w = cs := happw
  have hw_mem : ∀ c ∈ w, c ∈ cs := fun c hcw => mem_of_mem_dropWhile hcw
  have hw_noAdj : adjAll noTwoWs w = true :=
    adjAll_append_right tw w (by rw [happw2]; exact hcs_noAdj)
  have hw_wsPred : adjAll wsPredR w = true :=
    adjAll_append_right tw w (by rw [happw2]; exact hcs_wsPred)
  have hw_head : ∀ c, w.head? = some c → isWordChar c = true := by
    intro c hch
    have h := head_dropWhile (fun c => !isWordChar c) cs c hch
    simpa using h
  obtain ⟨ty, _, happy'⟩ := dropWhile_decomp (fun c => !allowedTrail c) w.reverse
  have happy : y ++ ty.reverse = w := by
    show dropR (fun c => !allowedTrail c) w ++ ty.reverse = w
    unfold dropR
    conv_rhs => rw [← List.reverse_reverse w, ← happy', List.reverse_append]
  have hy_mem : ∀ c ∈ y, c ∈ w := fun c hcy => mem_of_mem_dropR hcy
  have hy_noAdj : adjAll noTwoWs y = true :=
    adjAll_append_left ty.reverse y (by rw [happy]; exact hw_noAdj)
  have hy_wsPred : adjAll wsPredR y = true :=
    adjAll_append_left ty.reverse y (by rw [happy]; exact hw_wsPred)
  have hy_head : ∀ c, y.head? = some c → isWordChar c = true := by
    intro c hch
    apply hw_head
    rw [← happy]
    exact head?_append_left y ty.reverse c hch
  have hy_last : ∀ c, y.getLast? = some c → allowedTrail c = true := by
    intro c hcl
    have hge : y.getLast? = (w.reverse.dropWhile (fun c => !allowedTrail c)).head? := by
      show (dropR (fun c => !allowedTrail c) w).getLast? = _
      unfold dropR
      rw [List.getLast?_reverse]
    rw [hge] at hcl
    have h := head_dropWhile _ _ c hcl
    simpa using h
  have hy_headns : ∀ c, y.head? = some c → pyIsSpace c = false :=
    fun c hch => word_not_space (hy_head c hch)
  have hstripy : pyStripL y = dropR pyIsSpace y := by
    unfold pyStripL dropL
    rw [dropWhile_eq_self_of_head pyIsSpace y hy_headns]
  have hr_eq : cleanList l = dropR pyIsSpace y := by rw [hmain, hstripy]
  obtain ⟨tr, htr_ws, happr'⟩ := dropWhile_decomp pyIsSpace y.reverse
  have happr : dropR pyIsSpace y ++ tr.reverse = y := by
    unfold dropR
    conv_rhs => rw [← List.reverse_reverse y, ← happr', List.reverse_append]
  have hr_mem : ∀ c ∈ dropR pyIsSpace y, c ∈ y := fun c hcr => mem_of_mem_dropR hcr
  rw [hr_eq]
  refine ⟨?_, ?_, ?_, ?_, ?_⟩
  · intro c hcr
    rcases hcs_mem c (hw_mem c (hy_mem c (hr_mem c hcr))) with rfl | ⟨hm1, _⟩
    · decide
    · exact hc c (mem_of_mem_dropWhile hm1)
  · intro c hcr hws
    rcases hcs_mem c (hw_mem c (hy_mem c (hr_mem c hcr))) with rfl | ⟨_, hm2⟩
    · rfl
    · rw [hws] at hm2; cases hm2
  · exact adjAll_append_left tr.reverse _ (by rw [happr]; exact hy_noAdj)
  · intro c hch
    apply hy_head
    rw [← happr]
    exact head?_append_left _ tr.reverse c hch
  · intro c hcl
    have hge : (dropR pyIsSpace y).getLast? = (y.reverse.dropWhile pyIsSpace).head? := by
      unfold dropR
      rw [List.getLast?_reverse]
    rw [hge] at hcl
    have hnws : pyIsSpace c = false := head_dropWhile _ _ c hcl
    refine ⟨?_, hnws⟩
    have hwsrev : adjAll (fun a b => wsPredR b a) y.reverse = true := by
      rw [adjAll_reverse]
      exact hy_wsPred
    have hnadjrev : adjAll (fun a b => noTwoWs b a) y.reverse = true := by
      rw [adjAll_reverse]
      exact hy_noAdj
    cases hv : y.reverse with
    | nil => rw [hv] at hcl; cases hcl
    | cons c0 t =>
      rw [hv] at hcl hwsrev hnadjrev
      by_cases hc0 : pyIsSpace c0 = true
      · cases t with
        | nil =>
          rw [List.dropWhile_cons, if_pos hc0] at hcl
          cases hcl
        | cons c1 t2 =>
          have hp1 : wsPredR c1 c0 = true := adjAll_cons_head hwsrev c1 rfl
          have hp2 : noTwoWs c1 c0 = true := adjAll_cons_head hnadjrev c1 rfl
          unfold wsPredR at hp1
          rw [hc0] at hp1
          simp only [Bool.not_true, Bool.false_or] at hp1
          unfold noTwoWs at hp2
          rw [hc0] at hp2
          simp only [Bool.and_true, Bool.not_eq_true'] at hp2
          rw [List.dropWhile_cons, if_pos hc0, List.dropWhile_cons,
            if_neg (by simp [hp2])] at hcl
          rw [List.head?_cons] at hcl
          obtain rfl := Option.some.inj hcl
          exact hp1
      · rw [List.dropWhile_cons, if_neg hc0, List.head?_cons] at hcl
        obtain rfl := Option.some.inj hcl
        apply hy_last
        rw [← List.head?_reverse, hv, List.head?_cons]

/-! ## C2 : grouping machinery

`time_groups` is a Python dict keyed by the converted `(opens, closes)`
pair; its key order is first-occurrence order and each key's value is the
list of (mapped) day names of the entries sharing the pair, in input order.
We characterise `timeGroups` (hence `_format_opening_hours`) in exactly
those terms. -/

/-- First-occurrence deduplication (Python-dict key order). -/
def firstDedup {α : Type _} [DecidableEq α] (l : List α) : List α :=
  l.foldl (fun acc k => if k ∈ acc then acc else acc ++ [k]) []

theorem firstDedup_aux_mem {α : Type _} [DecidableEq α] (l : List α) :
    ∀ (acc : List α) (a : α),
      a ∈ l.foldl (fun acc k => if k ∈ acc then acc else acc ++ [k]) acc ↔
        a ∈ acc ∨ a ∈ l := by
  induction l with
  | nil => simp
  | cons x l ih =>
    intro acc a
    simp only [List.foldl_cons, ih, List.mem_cons]
    by_cases hx : x ∈ acc
    · rw [if_pos hx]
      constructor
      · rintro (h | h)
        · exact Or.inl h
        · exact Or.inr (Or.inr h)
      · rintro (h | h | h)
        · exact Or.inl h
        · exact Or.inl (h ▸ hx)
        · exact Or.inr h
    · rw [if_neg hx]
      simp only [List.mem_append, List.mem_singleton]
      tauto

theorem firstDedup_mem {α : Type _} [DecidableEq α] {l : List α} {a : α} :
    a ∈ firstDedup l ↔ a ∈ l := by
  unfold firstDedup
  rw [firstDedup_aux_mem]
  simp

theorem firstDedup_aux_nodup {α : Type _} [DecidableEq α] (l : List α) :
    ∀ acc : List α, acc.Nodup →
      (l.foldl (fun acc k => if k ∈ acc then acc else acc ++ [k]) acc).Nodup := by
  induction l with
  | nil => exact fun acc h => h
  | cons x l ih =>
    intro acc hacc
    simp only [List.foldl_cons]
    by_cases hx : x ∈ acc
    · rw [if_pos hx]; exact ih acc hacc
    · rw [if_neg hx]
      refine ih _ ?_
      simp [List.nodup_append, hacc, hx]

theorem firstDedup_nodup {α : Type _} [DecidableEq α] (l : List α) :
    (firstDedup l).Nodup :=
  firstDedup_aux_nodup l [] List.nodup_nil

theorem firstDedup_append_singleton {α : Type _} [DecidableEq α] (l : List α)
    (x : α) :
    firstDedup (l ++ [x]) =
      if x ∈ l then firstDedup l else firstDedup l ++ [x] := by
  unfold firstDedup
  rw [List.foldl_append]
  simp only [List.foldl_cons, List.foldl_nil]
  by_cases hx : x ∈ l
  · rw [if_pos hx, if_pos]
    rw [firstDedup_aux_mem]
    simp [hx]
  · rw [if_neg hx, if_neg]
    rw [firstDedup_aux_mem]
    simp [hx]

/-- The grouping fold over an explicit processed list. -/
def groupsOf (q : List (String × String × String)) :
    List ((String × String) × List String) :=
  q.foldl (fun acc p => addGroup acc p.2 p.1) []

theorem timeGroups_eq_groupsOf (l : List HourEntry) :
    timeGroups l = groupsOf (processedEntries l) := rfl

/-- The converted (opens, closes) keys of a processed list. -/
def keysOf (q : List (String × String × String)) : List (String × String) :=
  q.map fun p => p.2

/-- The days of the processed entries whose key is `k`, in input order. -/
def daysOf (q : List (String × String × String)) (k : String × String) :
    List String :=
  q.filterMap fun p => if p.2 = k then some p.1 else none

theorem daysOf_append (q : List (String × String × String))
    (p : String × String × String) (k : String × String) :
    daysOf (q ++ [p]) k = daysOf q k ++ (if p.2 = k then [p.1] else []) := by
  unfold daysOf
  rw [List.filterMap_append]
  congr 1
  by_cases h : p.2 = k
  · simp [List.filterMap_cons, h]
  · simp [List.filterMap_cons, h]

theorem daysOf_eq_nil_of_not_mem (q : List (String × String × String))
    (k : String × String) (h : k ∉ keysOf q) : daysOf q k = [] := by
  unfold daysOf
  rw [List.filterMap_eq_nil_iff]
  intro p hp
  rw [if_neg]
  intro hk
  exact h (hk ▸ List.mem_map_of_mem _ hp)

theorem addGroup_not_mem (ks : List (String × String))
    (f : String × String → List String) (k : String × String) (d : String)
    (h : k ∉ ks) :
    addGroup (ks.map fun j => (j, f j)) k d =
      ks.map (fun j => (j, f j)) ++ [(k, [d])] := by
  induction ks with
  | nil => rfl
  | cons a ks ih =>
    simp only [List.mem_cons, not_or] at h
    simp only [List.map_cons, addGroup]
    rw [if_neg (fun hc => h.1 hc.symm)]
    rw [ih h.2]
    simp

theorem addGroup_mem (ks : List (String × String))
    (f : String × String → List String) (k : String × String) (d : String)
    (h : k ∈ ks) (hnd : ks.Nodup) :
    addGroup (ks.map fun j => (j, f j)) k d =
      ks.map fun j => (j, if j = k then f j ++ [d] else f j) := by
  induction ks with
  | nil => cases h
  | cons a ks ih =>
    simp only [List.map_cons, addGroup]
    by_cases ha : a = k
    · rw [if_pos ha]
      subst ha
      have hnotin : a ∉ ks := (List.nodup_cons.mp hnd).1
      simp only [if_pos rfl]
      congr 1
      apply List.map_congr_left
      intro j hj
      rw [if_neg]
      intro hc
      exact hnotin (hc ▸ hj)
    · rw [if_neg ha]
      have hk : k ∈ ks := by
        rcases List.mem_cons.mp h with hc | hc
        · exact absurd hc.symm ha
        · exact hc
      rw [ih hk (List.nodup_cons.mp hnd).2]
      simp [if_neg ha]

/-- The characterisation of the grouping fold: one group per distinct key
in first-occurrence order, carrying that key's days in input order. -/
theorem groupsOf_eq (q : List (String × String × String)) :
    groupsOf q = (firstDedup (keysOf q)).map fun k => (k, daysOf q k) := by
  induction q using List.reverseRecOn with
  | nil => rfl
  | append_singleton q p ih =>
    have hfold : groupsOf (q ++ [p]) = addGroup (groupsOf q) p.2 p.1 := by
      unfold groupsOf
      rw [List.foldl_append]
      rfl
    have hkeys : keysOf (q ++ [p]) = keysOf q ++ [p.2] := by
      unfold keysOf
      rw [List.map_append]
      rfl
    rw [hfold, ih, hkeys, firstDedup_append_singleton]
    by_cases hmem : p.2 ∈ keysOf q
    · rw [if_pos hmem]
      rw [addGroup_mem _ _ _ _ (firstDedup_mem.mpr hmem) (firstDedup_nodup _)]
      apply List.map_congr_left
      intro j hj
      rw [daysOf_append]
      by_cases hk : j = p.2
      · rw [if_pos hk, if_pos hk.symm]
      · rw [if_neg hk, if_neg (fun hc => hk hc.symm)]
        simp
    · rw [if_neg hmem]
      rw [addGroup_not_mem _ _ _ _ (fun hc => hmem (firstDedup_mem.mp hc))]
      rw [List.map_append]
      congr 1
      · apply List.map_congr_left
        intro j hj
        rw [daysOf_append]
        rw [if_neg (fun hc : p.2 = j => hmem (hc.symm ▸ firstDedup_mem.mp hj))]
        simp
      · simp only [List.map_cons, List.map_nil]
        rw [daysOf_append, daysOf_eq_nil_of_not_mem _ _ hmem]
        rw [if_pos rfl]
        simp

/-- Closed records do not contribute to the processed list. -/
theorem processedEntries_filter (l : List HourEntry) :
    processedEntries (l.filter fun e => !e.closed) = processedEntries l := by
  induction l with
  | nil => rfl
  | cons e l ih =>
    by_cases h : e.closed
    · have h1 : (e :: l).filter (fun e => !e.closed) = l.filter fun e => !e.closed := by
        simp [List.filter_cons, h]
      rw [h1, ih]
      show processedEntries l = processedEntries (e :: l)
      unfold processedEntries
      rw [List.filterMap_cons]
      simp [h]
    · have h1 : (e :: l).filter (fun e => !e.closed) =
          e :: l.filter fun e => !e.closed := by
        simp [List.filter_cons, h]
      rw [h1]
      unfold processedEntries at ih ⊢
      rw [List.filterMap_cons, List.filterMap_cons, ih]

/-- The converted `(opens, closes)` pair of each non-closed record, in
input order (the claim-level key list). -/
def openKeys (l : List HourEntry) : List (String × String) :=
  (l.filter fun e => !e.closed).map
    fun e => (convertTo24h e.opens, convertTo24h e.closes)

/-- The mapped day names of the non-closed records sharing the pair `k`,
in input order. -/
def openDaysFor (l : List HourEntry) (k : String × String) : List String :=
  (l.filter fun e => !e.closed).filterMap
    fun e =>
      if (convertTo24h e.opens, convertTo24h e.closes) = k then some (mapDay e.day)
      else none

/-- When every open record carries non-empty times, the processed list is
just the open records with mapped days and converted times. -/
theorem processedEntries_eq_of_nonempty (l : List HourEntry)
    (H : ∀ e ∈ l, e.closed = false → e.opens ≠ "" ∧ e.closes ≠ "") :
    processedEntries l = (l.filter fun e => !e.closed).map
      fun e => (mapDay e.day, convertTo24h e.opens, convertTo24h e.closes) := by
  induction l with
  | nil => rfl
  | cons e l ih =>
    have Hl : ∀ e' ∈ l, e'.closed = false → e'.opens ≠ "" ∧ e'.closes ≠ "" :=
      fun e' h => H e' (List.mem_cons_of_mem _ h)
    unfold processedEntries at ih ⊢
    rw [List.filterMap_cons, List.filter_cons]
    by_cases h : e.closed
    · simp only [h, if_pos rfl, Bool.not_true, Bool.false_eq_true, if_false]
      exact ih Hl
    · have He := H e (List.mem_cons_self e l) (by simp [h])
      have ih2 := ih Hl
      simp only [h] at ih2 ⊢
      simp [h, He.1, He.2] at ih2 ⊢
      exact ih2

/-- C2: the crawler's opening-hours formatting drops closed entries, maps
day names to English, converts the times shown in the reference examples to
24-hour `HH:MM:SS`, and emits exactly one specification per distinct
converted `(opens, closes)` pair — carrying that pair's day names in input
order, as a bare string for one day (`mkDayOfWeek [d] = one d`) and as a
list for several.  Hypothesis: every open entry carries non-empty `opens`
and `closes` values (records with an empty time are silently dropped by the
`hour_data['opens'] and hour_data['closes']` guard). -/
theorem C2_format_opening_hours (l : List HourEntry)
    (H : ∀ e ∈ l, e.closed = false → e.opens ≠ "" ∧ e.closes ≠ "") :
    convertTo24h "9:30 PM" = "21:30:00" ∧
    convertTo24h "12:00 AM" = "00:00:00" ∧
    convertTo24h "14:00" = "14:00:00" ∧
    formatOpeningHours l = formatOpeningHours (l.filter fun e => !e.closed) ∧
    formatOpeningHours l =
      (firstDedup (openKeys l)).map
        (fun k => ⟨mkDayOfWeek (openDaysFor l k), k.1, k.2⟩) ∧
    ((formatOpeningHours l).map fun s => (s.opens, s.closes)).Nodup ∧
    (∀ k, k ∈ (formatOpeningHours l).map (fun s => (s.opens, s.closes)) ↔
      k ∈ openKeys l) := by
  have hproc := processedEntries_eq_of_nonempty l H
  have hchar : formatOpeningHours l =
      (firstDedup (openKeys l)).map
        (fun k => ⟨mkDayOfWeek (openDaysFor l k), k.1, k.2⟩) := by
    unfold formatOpeningHours
    rw [timeGroups_eq_groupsOf, groupsOf_eq, List.map_map]
    have hkeys : keysOf (processedEntries l) = openKeys l := by
      rw [hproc]
      unfold keysOf openKeys
      rw [List.map_map]
      rfl
    rw [hkeys]
    apply List.map_congr_left
    intro k _
    show (⟨mkDayOfWeek (daysOf (processedEntries l) k), k.1, k.2⟩ : OpeningSpec) = _
    have hdays : daysOf (processedEntries l) k = openDaysFor l k := by
      rw [hproc]
      unfold daysOf openDaysFor
      rw [List.filterMap_map]
      rfl
    rw [hdays]
  have hcomp : ((fun s : OpeningSpec => (s.opens, s.closes)) ∘
      (fun k : String × String =>
        (⟨mkDayOfWeek (openDaysFor l k), k.1, k.2⟩ : OpeningSpec))) =
      fun k => k := rfl
  refine ⟨by decide, by decide, by decide, ?_, hchar, ?_, ?_⟩
  · unfold formatOpeningHours
    rw [timeGroups_eq_groupsOf, timeGroups_eq_groupsOf, processedEntries_filter]
  · rw [hchar, List.map_map, hcomp]
    simpa using firstDedup_nodup (openKeys l)
  · intro k
    rw [hchar, List.map_map, hcomp]
    simpa using firstDedup_mem

theorem C2_witness :
    (∀ e ∈ [(⟨"周一", "9:00 AM", "5:00 PM", false⟩ : HourEntry),
            ⟨"Tue", "9:00 AM", "5:00 PM", false⟩,
            ⟨"周日", "", "", true⟩],
      e.closed = false → e.opens ≠ "" ∧ e.closes ≠ "") ∧
    formatOpeningHours
        [⟨"周一", "9:00 AM", "5:00 PM", false⟩,
         ⟨"Tue", "9:00 AM", "5:00 PM", false⟩,
         ⟨"周日", "", "", true⟩] =
      formatOpeningHours
        (([⟨"周一", "9:00 AM", "5:00 PM", false⟩,
           ⟨"Tue", "9:00 AM", "5:00 PM", false⟩,
           ⟨"周日", "", "", true⟩] : List HourEntry).filter fun e => !e.closed) :=
  ⟨by decide,
    (C2_format_opening_hours
      [⟨"周一", "9:00 AM", "5:00 PM", false⟩,
       ⟨"Tue", "9:00 AM", "5:00 PM", false⟩,
       ⟨"周日", "", "", true⟩] (by decide)).2.2.2.1⟩

/-! ## C1 : `parse_address` -/

theorem finalizeAddress_mem_type (base : List (String × String)) :
    ∃ v, ("@type", v) ∈ finalizeAddress base := by
  unfold finalizeAddress
  by_cases h : (base.filter fun kv => kv.2 ≠ "" && pyStrip kv.2 ≠ "").any
      (fun kv => kv.1 = "@type")
  · rw [if_pos h]
    obtain ⟨kv, hmem, hkey⟩ := List.any_eq_true.mp h
    simp only [decide_eq_true_eq] at hkey
    exact ⟨kv.2, by rw [← hkey]; exact hmem⟩
  · rw [if_neg h]
    exact ⟨"PostalAddress", by simp⟩

theorem finalizeAddress_values (base : List (String × String)) :
    ∀ kv ∈ finalizeAddress base, kv.2 ≠ "" ∧ pyStrip kv.2 ≠ "" := by
  unfold finalizeAddress
  intro kv hmem
  by_cases h : (base.filter fun kv => kv.2 ≠ "" && pyStrip kv.2 ≠ "").any
      (fun kv => kv.1 = "@type")
  · rw [if_pos h] at hmem
    have := (List.mem_filter.mp hmem).2
    simp only [Bool.and_eq_true, decide_eq_true_eq] at this
    exact this
  · rw [if_neg h] at hmem
    rcases List.mem_append.mp hmem with h2 | h2
    · have := (List.mem_filter.mp h2).2
      simp only [Bool.and_eq_true, decide_eq_true_eq] at this
      exact this
    · simp only [List.mem_singleton] at h2
      subst h2
      exact ⟨by decide, by decide⟩

/-- C1: `parse_address` maps the two reference addresses to exactly the
expected `PostalAddress` dictionaries, and for every input the result
contains the `@type` key and binds no key to an empty or whitespace-only
value. -/
theorem C1_parse_address :
    parseAddress "123 Main St, New York, NY 10001, USA" =
      [("@type", "PostalAddress"), ("addressCountry", "US"),
       ("addressLocality", "New York"), ("addressRegion", "NY"),
       ("postalCode", "10001"), ("streetAddress", "123 Main St")] ∧
    parseAddress "23 Smith St, Warragul VIC 3820, Australia" =
      [("@type", "PostalAddress"), ("addressCountry", "AU"),
       ("addressLocality", "Warragul"), ("addressRegion", "VIC"),
       ("postalCode", "3820"), ("streetAddress", "23 Smith St")] ∧
    ∀ s : String, (∃ v, ("@type", v) ∈ parseAddress s) ∧
      ∀ kv ∈ parseAddress s, kv.2 ≠ "" ∧ pyStrip kv.2 ≠ "" := by
  refine ⟨by decide, by decide, fun s => ?_⟩
  unfold parseAddress
  by_cases hs : s = ""
  · rw [if_pos hs]
    refine ⟨⟨"PostalAddress", by simp⟩, ?_⟩
    intro kv h
    simp only [List.mem_singleton] at h
    subst h
    exact ⟨by decide, by decide⟩
  · rw [if_neg hs]
    exact ⟨finalizeAddress_mem_type _, finalizeAddress_values _⟩

/-! ## C3 : exceptions inside the extraction blocks become 429, not 200 -/

/-- C3 (refuting the claim; the code contradicts its own test
`test_extract_error_response_format`): with a valid URL, a cache miss and a
crawl that raises `Exception("boom")`, the endpoint does **not** answer
HTTP 200 with `{success:false, error:"boom"}`; the context manager converts
the body's exception into `ConcurrencyLimitExceeded` and the service
answers 429 with the concurrency error body. -/
theorem C3_crawl_exception_yields_429 :
    extractEndpoint true false (.ok ()) (.ok none) (.ok ()) (.error (.exc "boom")) =
      ⟨429, some false, some "并发限制已达上限", some "CONCURRENCY_LIMIT_EXCEEDED",
        some 5⟩ ∧
    (extractEndpoint true false (.ok ()) (.ok none) (.ok ())
      (.error (.exc "boom"))).status ≠ 200 ∧
    (extractEndpoint true false (.ok ()) (.ok none) (.ok ())
      (.error (.exc "boom"))).error ≠ some "boom" := by decide

/-! ## C4 : the concurrency limiter -/

theorem runLimOps_card_le (b : Bucket) (ops : List LimOp) :
    ∀ s : Finset Nat, s.card ≤ bucketLimit b →
      (runLimOps b ops s).card ≤ bucketLimit b := by
  induction ops with
  | nil => intro s hs; exact hs
  | cons op ops ih =>
    intro s hs
    cases op with
    | acquire i =>
      show (runLimOps b (.acquire i :: ops) s).card ≤ bucketLimit b
      unfold runLimOps acquireConnection
      by_cases h : bucketLimit b ≤ s.card
      · rw [if_pos h]
        exact ih s hs
      · rw [if_neg h]
        exact ih _ (le_trans (Finset.card_insert_le _ _) (by omega))
    | release i =>
      exact ih _ (le_trans (Finset.card_erase_le) hs)

/-- C4: starting from an empty lease set, no acquire/release sequence ever
pushes the set's cardinality above the bucket limit; an acquisition at the
limit is rejected with the bucket's retry delay (3 s cache, 10 s crawler);
and after releasing one lease exactly one further acquisition succeeds. -/
theorem C4_concurrency_limiter (b : Bucket) :
    (∀ ops : List LimOp, (runLimOps b ops ∅).card ≤ bucketLimit b) ∧
    bucketRetryAfter .cacheRequests = 3 ∧
    bucketRetryAfter .crawlerRequests = 10 ∧
    (∀ (s : Finset Nat) (i : Nat), s.card = bucketLimit b →
      acquireConnection b s i = .rejected s.card (bucketRetryAfter b)) ∧
    (∀ (s : Finset Nat) (x i : Nat), s.card = bucketLimit b → x ∈ s →
      i ∉ s.erase x →
      acquireConnection b (releaseConnection s x) i =
        .acquired (insert i (s.erase x)) ∧
      (insert i (s.erase x)).card = bucketLimit b ∧
      ∀ j : Nat, acquireConnection b (insert i (s.erase x)) j =
        .rejected (bucketLimit b) (bucketRetryAfter b)) := by
  refine ⟨fun ops => runLimOps_card_le b ops ∅ (by simp), rfl, rfl, ?_, ?_⟩
  · intro s i hs
    unfold acquireConnection
    rw [if_pos (le_of_eq hs.symm)]
  · intro s x i hs hx hi
    have hpos : 1 ≤ s.card := Finset.card_pos.mpr ⟨x, hx⟩
    have herase : (s.erase x).card = s.card - 1 := Finset.card_erase_of_mem hx
    have hcard : (insert i (s.erase x)).card = bucketLimit b := by
      rw [Finset.card_insert_of_not_mem hi, herase]
      omega
    refine ⟨?_, hcard, ?_⟩
    · unfold acquireConnection releaseConnection
      rw [if_neg (by rw [herase]; omega)]
    · intro j
      unfold acquireConnection
      rw [if_pos (le_of_eq hcard.symm), hcard]

/-- Witness for C4: the crawler bucket at its limit of 50; releasing one
lease admits exactly one more acquisition. -/
theorem C4_witness :
    (Finset.range 50).card = bucketLimit .crawlerRequests ∧
    0 ∈ Finset.range 50 ∧ 100 ∉ (Finset.range 50).erase 0 ∧
    acquireConnection .crawlerRequests (releaseConnection (Finset.range 50) 0) 100 =
      .acquired (insert 100 ((Finset.range 50).erase 0)) :=
  ⟨by decide, by decide, by decide,
    ((C4_concurrency_limiter .crawlerRequests).2.2.2.2 (Finset.range 50) 0 100
      (by decide) (by decide) (by decide)).1⟩

/-! ## C6 : `format_phone_number` keeps every `+`, not only a leading one -/

/-- C6 (refuting the claim's universal part; the code contradicts its own
inline comment "移除除开头的+号外的所有非数字字符"): the reference example
holds, but a `+` after the first character also survives. -/
theorem C6_format_phone_number :
    formatPhoneNumber "(555) 123-4567" = some "5551234567" ∧
    formatPhoneNumber "5+5" = some "5+5" ∧
    (formatPhoneNumber "5+5").getD "" ≠ "5" ∧
    ('+' ∈ ((formatPhoneNumber "5+5").getD "").data.drop 1) := by decide

/-! ## C7 : description override -/

/-- C7 counterexample: an empty caller-supplied description does **not**
override a scraped one, on either path (`custom_description or ...` and
`if extract_request.description:` both treat `""` as absent). -/
theorem C7_counterexample :
    (generateSchema { emptyBD with description := some "Scraped" } "u"
        (some "")).description = some "Scraped" ∧
    (generateSchema { emptyBD with description := some "Scraped" } "u"
        (some "")).description ≠ some "" ∧
    (applyCachedDescriptionOverride
        (generateSchema { emptyBD with description := some "Scraped" } "u" none)
        (some "")).description = some "Scraped" := by decide

/-- C7 (amended): every **non-empty** caller-supplied description overrides
the scraped description, on both the fresh-extraction path and the
cache-hit rendering path. -/
theorem C7_description_override (bd : BusinessData) (url : String) (d : String)
    (hd : d ≠ "") (cached : LocalBusinessSchemaL) :
    (generateSchema bd url (some d)).description = some d ∧
    (applyCachedDescriptionOverride cached (some d)).description = some d := by
  constructor
  · simp [generateSchema, pyOrStr, pyTruthyStr, hd]
  · simp [applyCachedDescriptionOverride, pyTruthyStr, hd]

theorem C7_witness :
    ("mine" : String) ≠ "" ∧
    (generateSchema { emptyBD with description := some "Scraped" } "u"
        (some "mine")).description = some "mine" ∧
    (applyCachedDescriptionOverride
        (generateSchema { emptyBD with description := some "Scraped" } "u" none)
        (some "mine")).description = some "mine" :=
  ⟨by decide,
    (C7_description_override { emptyBD with description := some "Scraped" } "u"
      "mine" (by decide)
      (generateSchema { emptyBD with description := some "Scraped" } "u" none)).1,
    (C7_description_override { emptyBD with description := some "Scraped" } "u"
      "mine" (by decide)
      (generateSchema { emptyBD with description := some "Scraped" } "u" none)).2⟩

/-! ## C9 : zero rating data emits no aggregate-rating block -/

/-- C9: when the rating is `0.0` or absent and the review count is `0` or
absent, `generate_schema` emits no `aggregateRating` block (Python
truthiness treats the zeros like absence). -/
theorem C9_zero_rating_no_aggregate (bd : BusinessData) (url : String)
    (d : Option String)
    (hr : bd.rating = none ∨ bd.rating = some 0)
    (hc : bd.reviewCount = none ∨ bd.reviewCount = some 0) :
    (generateSchema bd url d).aggregateRating = none := by
  have h1 : pyTruthyQ bd.rating = false := by
    rcases hr with h | h <;> simp [h, pyTruthyQ]
  have h2 : pyTruthyNat bd.reviewCount = false := by
    rcases hc with h | h <;> simp [h, pyTruthyNat]
  simp [generateSchema, h1, h2]

theorem C9_witness :
    (({ emptyBD with rating := some 0, reviewCount := some 0 } :
        BusinessData).rating = none ∨
      ({ emptyBD with rating := some 0, reviewCount := some 0 } :
        BusinessData).rating = some 0) ∧
    (generateSchema { emptyBD with rating := some 0, reviewCount := some 0 }
        "u" none).aggregateRating = none :=
  ⟨Or.inr rfl,
    C9_zero_rating_no_aggregate
      { emptyBD with rating := some 0, reviewCount := some 0 } "u" none
      (Or.inr rfl) (Or.inr rfl)⟩

/-! ## C5 : timeline totals versus windowed totals -/

/-- Entries of `L` whose timestamp lies in `[a, b)`. -/
def countIn (L : List StatEntry) (a b : ℚ) : Nat :=
  (L.filter fun e => decide (a ≤ e.timestamp ∧ e.timestamp < b)).length

theorem timelineBucket_requests (L : List StatEntry) (a b : ℚ) :
    (timelineBucket L a b).requests = countIn L a b := by
  show (L.filter fun e =>
      decide (a ≤ e.timestamp) && decide (e.timestamp < b)).length =
    (L.filter fun e => decide (a ≤ e.timestamp ∧ e.timestamp < b)).length
  congr 1
  apply List.filter_congr
  intro e _
  exact (Bool.decide_and _ _).symm

theorem countIn_self (L : List StatEntry) (a : ℚ) : countIn L a a = 0 := by
  induction L with
  | nil => rfl
  | cons e L ih =>
    unfold countIn at ih ⊢
    rw [List.filter_cons]
    have h : ¬(a ≤ e.timestamp ∧ e.timestamp < a) :=
      fun hx => absurd (lt_of_le_of_lt hx.1 hx.2) (lt_irrefl a)
    simp only [h, decide_False, if_false, Bool.false_eq_true]
    exact ih

theorem countIn_split (L : List StatEntry) (a b c : ℚ) (hab : a ≤ b)
    (hbc : b ≤ c) : countIn L a c = countIn L a b + countIn L b c := by
  induction L with
  | nil => rfl
  | cons e L ih =>
    unfold countIn at ih ⊢
    rw [List.filter_cons, List.filter_cons, List.filter_cons]
    by_cases h1 : a ≤ e.timestamp
    · by_cases h2 : e.timestamp < b
      · have h3 : e.timestamp < c := lt_of_lt_of_le h2 hbc
        have h4 : ¬ b ≤ e.timestamp := not_le.mpr h2
        simp [h1, h2, h3, h4] at ih ⊢
        omega
      · by_cases h3 : e.timestamp < c
        · have h5 : b ≤ e.timestamp := not_lt.mp h2
          simp [h1, h2, h3, h5] at ih ⊢
          omega
        · simp [h1, h2, h3] at ih ⊢
          omega
    · have h6 : ¬ b ≤ e.timestamp := fun hb => h1 (le_trans hab hb)
      simp [h1, h6] at ih ⊢
      omega

/-- The 60-second buckets starting at `a` tile `[a, a + 60·n)`. -/
theorem timelineAux_sum (L : List StatEntry) :
    ∀ (n : Nat) (a : ℚ),
      ((timelineAux L n a).map fun tp => tp.requests).sum =
        countIn L a (a + 60 * n) := by
  intro n
  induction n with
  | zero =>
    intro a
    simp only [timelineAux, List.map_nil, List.sum_nil, Nat.cast_zero,
      mul_zero, add_zero]
    exact (countIn_self L a).symm
  | succ n ih =>
    intro a
    simp only [timelineAux, List.map_cons, List.sum_cons]
    rw [timelineBucket_requests, ih]
    have he : a + 60 + 60 * (n : ℚ) = a + 60 * ((n + 1 : Nat) : ℚ) := by
      push_cast
      ring
    rw [he]
    refine (countIn_split L a (a + 60) _ (by linarith) ?_).symm
    have hn : (0 : ℚ) ≤ (n : ℚ) := Nat.cast_nonneg n
    push_cast
    linarith

theorem countIn_all (L : List StatEntry) (a b : ℚ)
    (h : ∀ e ∈ L, a ≤ e.timestamp ∧ e.timestamp < b) :
    countIn L a b = L.length := by
  unfold countIn
  rw [List.filter_eq_self.mpr]
  intro e he
  simp [h e he]

/-- On a wall-clock-ordered series, the cleanup sweep leaves exactly the
entries at or after the cutoff. -/
theorem cleanup_mem_ge (l : List StatEntry) (c : ℚ)
    (hs : l.Pairwise fun x y => x.timestamp ≤ y.timestamp) :
    ∀ e ∈ l.dropWhile (fun e => decide (e.timestamp < c)), c ≤ e.timestamp := by
  induction l with
  | nil => simp
  | cons x l ih =>
    by_cases h : x.timestamp < c
    · rw [List.dropWhile_cons, if_pos (by simpa using h)]
      exact ih (List.pairwise_cons.mp hs).2
    · rw [List.dropWhile_cons, if_neg (by simpa using h)]
      intro e he
      rcases List.mem_cons.mp he with rfl | he2
      · exact not_lt.mp h
      · exact le_trans (not_lt.mp h) ((List.pairwise_cons.mp hs).1 e he2)

/-- C5 counterexample: a request recorded at exactly the evaluation instant
is counted in the windowed total of `get_current_stats` but in none of the
timeline buckets, whose half-open intervals end at the instant. -/
theorem C5_counterexample :
    timelineRequestsSum 3600 [⟨3600, "/api/extract", true, 0⟩] = 0 ∧
    (getCurrentStatsWindow 3600 [⟨3600, "/api/extract", true, 0⟩]).requests = 1 ∧
    timelineRequestsSum 3600 [⟨3600, "/api/extract", true, 0⟩] ≠
      (getCurrentStatsWindow 3600 [⟨3600, "/api/extract", true, 0⟩]).requests := by
  have hclean : cleanupOldData 3600 [(⟨3600, "/api/extract", true, 0⟩ : StatEntry)] =
      [⟨3600, "/api/extract", true, 0⟩] := by
    unfold cleanupOldData windowSeconds
    norm_num [List.dropWhile]
  have h1 : timelineRequestsSum 3600 [(⟨3600, "/api/extract", true, 0⟩ : StatEntry)] = 0 := by
    unfold timelineRequestsSum getTimelineData
    simp only [hclean]
    rw [if_neg (by simp)]
    rw [timelineAux_sum]
    unfold countIn windowSeconds
    norm_num [List.filter]
  have h2 : (getCurrentStatsWindow 3600
      [(⟨3600, "/api/extract", true, 0⟩ : StatEntry)]).requests = 1 := by
    unfold getCurrentStatsWindow
    simp only [hclean]
    rfl
  exact ⟨h1, h2, by rw [h1, h2]; omega⟩

/-- C5 (amended): for a wall-clock-ordered series whose every entry is
recorded strictly before the evaluation instant, the timeline view summed
over its 60 buckets equals the windowed request total of the current-stats
view at the same instant. -/
theorem C5_timeline_sum_eq_window (now : ℚ) (l : List StatEntry)
    (hsort : l.Pairwise fun x y => x.timestamp ≤ y.timestamp)
    (hlt : ∀ e ∈ l, e.timestamp < now) :
    timelineRequestsSum now l = (getCurrentStatsWindow now l).requests := by
  unfold timelineRequestsSum getTimelineData getCurrentStatsWindow
  by_cases hnil : cleanupOldData now l = []
  · rw [if_pos hnil]
    simp [hnil]
  · rw [if_neg hnil]
    show ((timelineAux (cleanupOldData now l) 60 (now - windowSeconds)).map
        (fun tp => tp.requests)).sum = (cleanupOldData now l).length
    rw [timelineAux_sum]
    have h2 : now - windowSeconds + 60 * ((60 : Nat) : ℚ) = now := by
      unfold windowSeconds
      push_cast
      ring
    rw [h2]
    apply countIn_all
    intro e he
    exact ⟨cleanup_mem_ge l (now - windowSeconds) hsort e he,
      hlt e (mem_of_mem_dropWhile he)⟩

theorem C5_witness :
    ([(⟨100, "/api/extract", true, 0⟩ : StatEntry)].Pairwise
      fun x y => x.timestamp ≤ y.timestamp) ∧
    (∀ e ∈ [(⟨100, "/api/extract", true, 0⟩ : StatEntry)], e.timestamp < 3600) ∧
    timelineRequestsSum 3600 [⟨100, "/api/extract", true, 0⟩] =
      (getCurrentStatsWindow 3600 [⟨100, "/api/extract", true, 0⟩]).requests :=
  ⟨by simp, by norm_num,
    C5_timeline_sum_eq_window 3600 [⟨100, "/api/extract", true, 0⟩]
      (by simp) (by norm_num)⟩

/-! ## C10 : a requested zero TTL falls back to the 24-hour default -/

/-- C10: in both cache implementations, `set` with `ttl_hours=0` stores the
entry exactly as `set` with the TTL argument omitted (the 24-hour default),
and no call can produce a zero effective TTL. -/
theorem C10_zero_ttl_uses_default :
    (∀ (now : ℚ) (url : String) (schema : LocalBusinessSchemaL),
      redisCacheSet 24 now url schema (some 0) = redisCacheSet 24 now url schema none ∧
      memCacheSet 24 now url schema (some 0) = memCacheSet 24 now url schema none) ∧
    effectiveTtlHours (some 0) 24 = 24 ∧
    (∀ o : Option Nat, effectiveTtlHours o 24 ≠ 0) ∧
    (∀ (now : ℚ) (url : String) (schema : LocalBusinessSchemaL) (o : Option Nat),
      (redisCacheSet 24 now url schema o).ttlSeconds ≠ 0) := by
  refine ⟨fun now url schema => ⟨rfl, rfl⟩, rfl, ?_, ?_⟩
  · intro o
    cases o with
    | none => simp [effectiveTtlHours]
    | some t =>
      by_cases h : t = 0 <;> simp [effectiveTtlHours, h]
  · intro now url schema o
    show effectiveTtlHours o 24 * 3600 ≠ 0
    cases o with
    | none => simp [effectiveTtlHours]
    | some t =>
      by_cases h : t = 0 <;> simp [effectiveTtlHours, h]

/-! ## C8 : idempotence of clean_text -/

/-- C8 counterexample: `clean_text` is **not** idempotent on `"a@ @"`,
an input with trailing punctuation outside the allowed set (so inside the
claim's scope): one pass gives `"a@"`, a second pass gives `"a"`. -/
theorem C8_counterexample :
    cleanText "a@ @" = "a@" ∧
    cleanText (cleanText "a@ @") ≠ cleanText "a@ @" := by decide

/-- C8 (amended): `clean_text` is idempotent on every input without C0/C1
control characters in which, from the first word character onward, every
whitespace character is immediately preceded by a character of the allowed
trailing class (word character, whitespace, comma, period, hyphen,
parenthesis). -/
theorem C8_clean_text_idempotent (s : String)
    (hc : ∀ c ∈ s.data, isCtrlChar c = false)
    (hw : adjAll wsPredR (s.data.dropWhile fun c => !isWordChar c) = true) :
    cleanText (cleanText s) = cleanText s := by
  obtain ⟨h1, h2, h3, h4, h5⟩ := cleanList_props s.data hc hw
  have hfix : cleanList (cleanList s.data) = cleanList s.data :=
    cleanList_fixed (cleanList s.data) h1 h2 h3 h4 h5
  by_cases hs : s = ""
  · rw [hs]
    decide
  · have ht : cleanText s = String.mk (cleanList s.data) := by
      unfold cleanText
      rw [if_neg hs]
    rw [ht]
    by_cases h0 : String.mk (cleanList s.data) = ""
    · rw [h0]
      decide
    · unfold cleanText
      rw [if_neg h0]
      show String.mk (cleanList (cleanList s.data)) = String.mk (cleanList s.data)
      rw [hfix]

theorem C8_witness :
    ((∀ c ∈ ("•• Hello, World!!" : String).data, isCtrlChar c = false) ∧
      adjAll wsPredR (("•• Hello, World!!" : String).data.dropWhile
        fun c => !isWordChar c) = true) ∧
    cleanText (cleanText "•• Hello, World!!") = cleanText "•• Hello, World!!" :=
  ⟨⟨by decide, by decide⟩,
    C8_clean_text_idempotent "•• Hello, World!!" (by decide) (by decide)⟩

end LBSG
